import Mathlib

/-!
Shallow embedding of `src/app.py` (serverless meal-planner chat handler).

The Python program consists of:
  * `handler(event, context)`  - the Function Compute entry point,
  * `get_ai_response(user_message, user_id)` - the upstream AI call with
    a single regional-endpoint retry and layered canned fallbacks,
  * a local HTTP server shim (not modelled; no claim touches it).

Modelling conventions:
  * JSON values are the inductive `JValue`.  Python's JSON numbers are
    modelled as a decimal mantissa/exponent pair `m * 10^e`; CPython parses
    fractional and exponent literals into IEEE floats, whose rounding is not
    reproduced here (floating point is out of scope), but integer JSON
    numbers - the only numerics any claim touches - are exact.
  * An inbound event is an association list `Event` of string keys to
    `JValue`s (CPython dict preserves insertion order; platform events come
    from JSON, so keys are strings).
  * Raised Python exceptions are `Except PyErr`; the exact CPython message
    texts are approximated (no claim depends on the wording).
  * The outbound network is an oracle `Net` from the request that
    `requests.post` would send to either a response or a raised exception.
    `get_ai_response` additionally returns the list of requests it issued,
    in order, so that call-count claims are statable.
  * `datetime.now()` is a `DateTime` parameter of the configuration.
-/

/-- JSON value, as produced by Python's `json.loads` / consumed by
`json.dumps`.  `num m e` denotes the decimal `m * 10 ^ e`. -/
inductive JValue where
  | null : JValue
  | bool (b : Bool) : JValue
  | num (m : Int) (e : Int) : JValue
  | str (s : String) : JValue
  | arr (xs : List JValue) : JValue
  | obj (kvs : List (String × JValue)) : JValue
deriving Repr

/-- Inbound event: a Python dict with string keys. -/
abbrev Event := List (String × JValue)

namespace JValue

mutual

/-- Structural (and Python `==`-like) equality test on JSON values. -/
def beq : JValue → JValue → Bool
  | .null, .null => true
  | .bool a, .bool b => a == b
  | .num m1 e1, .num m2 e2 => m1 == m2 && e1 == e2
  | .str a, .str b => a == b
  | .arr xs, .arr ys => beqList xs ys
  | .obj xs, .obj ys => beqKVs xs ys
  | _, _ => false

/-- Elementwise equality of JSON arrays. -/
def beqList : List JValue → List JValue → Bool
  | [], [] => true
  | x :: xs, y :: ys => beq x y && beqList xs ys
  | _, _ => false

/-- Pairwise equality of JSON object member lists. -/
def beqKVs : List (String × JValue) → List (String × JValue) → Bool
  | [], [] => true
  | (k1, v1) :: xs, (k2, v2) :: ys => k1 == k2 && beq v1 v2 && beqKVs xs ys
  | _, _ => false

end

instance : BEq JValue := ⟨beq⟩

/-- Elementwise `beq` agrees with equality once every element does. -/
theorem beqList_iff_of (xs : List JValue)
    (h : ∀ x ∈ xs, ∀ b, (beq x b = true ↔ x = b)) :
    ∀ ys, (beqList xs ys = true ↔ xs = ys) := by
  induction xs with
  | nil => intro ys; cases ys <;> simp [beqList]
  | cons x xs ihx =>
    intro ys
    cases ys with
    | nil => simp [beqList]
    | cons y ys =>
      rw [show beqList (x :: xs) (y :: ys) = (beq x y && beqList xs ys) from rfl]
      rw [Bool.and_eq_true, h x (by simp) y,
        ihx (fun z hz => h z (by simp [hz])) ys]
      simp

/-- Pairwise `beq` on members agrees with equality once every value does. -/
theorem beqKVs_iff_of (xs : List (String × JValue))
    (h : ∀ p ∈ xs, ∀ b, (beq p.2 b = true ↔ p.2 = b)) :
    ∀ ys, (beqKVs xs ys = true ↔ xs = ys) := by
  induction xs with
  | nil => intro ys; cases ys <;> simp [beqKVs]
  | cons p xs ihx =>
    intro ys
    cases ys with
    | nil => cases p; simp [beqKVs]
    | cons q ys =>
      cases p with
      | mk k1 v1 =>
        cases q with
        | mk k2 v2 =>
          rw [show beqKVs ((k1, v1) :: xs) ((k2, v2) :: ys)
              = (k1 == k2 && beq v1 v2 && beqKVs xs ys) from rfl]
          rw [Bool.and_eq_true, Bool.and_eq_true, h (k1, v1) (by simp) v2,
            ihx (fun z hz => h z (by simp [hz])) ys]
          simp [and_assoc]

/-- The Boolean equality on JSON values decides propositional equality. -/
theorem beq_iff_aux : ∀ (n : Nat) (a b : JValue), sizeOf a ≤ n →
    (beq a b = true ↔ a = b) := by
  intro n
  induction n with
  | zero =>
    intro a b h
    exact absurd h (by cases a <;> simp)
  | succ n ih =>
    intro a b h
    cases a <;> cases b
    case null.null => exact iff_of_true rfl rfl
    case bool.bool x y =>
      rw [show beq (bool x) (bool y) = (x == y) from rfl]; simp
    case num.num m1 e1 m2 e2 =>
      rw [show beq (num m1 e1) (num m2 e2) = (m1 == m2 && e1 == e2) from rfl]
      simp
    case str.str x y =>
      rw [show beq (str x) (str y) = (x == y) from rfl]; simp
    case arr.arr xs ys =>
      rw [show beq (arr xs) (arr ys) = beqList xs ys from rfl]
      rw [beqList_iff_of xs ?h ys]
      · simp
      · intro x hx b
        refine ih x b ?_
        have hlt : sizeOf x < sizeOf xs := List.sizeOf_lt_of_mem hx
        have : sizeOf (arr xs) = 1 + sizeOf xs := by simp
        omega
    case obj.obj xs ys =>
      rw [show beq (obj xs) (obj ys) = beqKVs xs ys from rfl]
      rw [beqKVs_iff_of xs ?h ys]
      · simp
      · intro p hp b
        refine ih p.2 b ?_
        have h1 : sizeOf p.2 < sizeOf p := by cases p; simp
        have hlt : sizeOf p < sizeOf xs := List.sizeOf_lt_of_mem hp
        have : sizeOf (obj xs) = 1 + sizeOf xs := by simp
        omega
    all_goals exact iff_of_false nofun nofun

theorem beq_iff (a b : JValue) : beq a b = true ↔ a = b :=
  beq_iff_aux (sizeOf a) a b le_rfl

instance : DecidableEq JValue :=
  fun a b => decidable_of_iff _ (beq_iff a b)

end JValue

/-! ## Character and digit utilities -/

/-- Lowercase hexadecimal digit, as `json.dumps` emits in `\uXXXX` escapes. -/
def hexChar : Nat → Char
  | 0 => '0' | 1 => '1' | 2 => '2' | 3 => '3' | 4 => '4'
  | 5 => '5' | 6 => '6' | 7 => '7' | 8 => '8' | 9 => '9'
  | 10 => 'a' | 11 => 'b' | 12 => 'c' | 13 => 'd' | 14 => 'e'
  | _ => 'f'

/-- Numeric value of a hexadecimal digit character, if it is one. -/
def hexVal (c : Char) : Option Nat :=
  if c.isDigit then some (c.toNat - 48)
  else if 'a' ≤ c && c ≤ 'f' then some (c.toNat - 87)
  else if 'A' ≤ c && c ≤ 'F' then some (c.toNat - 55)
  else none

/-- Decimal digits, most significant first; the fuel (any bound above the
digit count) makes the recursion structural. -/
def digitsAux : Nat → Nat → List Char
  | 0, _ => []
  | fuel + 1, n =>
    if n < 10 then [hexChar n]
    else digitsAux fuel (n / 10) ++ [hexChar (n % 10)]

/-- Decimal digits of a natural number, most significant first. -/
def digitsOf (n : Nat) : List Char := digitsAux (n + 1) n

/-- Left-pad a digit list with zeros to width `k` (Python `%02d`-style). -/
def padZeros (k : Nat) (ds : List Char) : List Char :=
  List.replicate (k - ds.length) '0' ++ ds

/-- Decimal rendering of an integer, with leading minus sign. -/
def intChars (m : Int) : List Char :=
  if m < 0 then '-' :: digitsOf m.natAbs else digitsOf m.natAbs

/-- Whitespace characters accepted between JSON tokens. -/
def isJsonWs (c : Char) : Bool :=
  c = ' ' || c = '\t' || c = '\n' || c = '\r'

/-- Whitespace stripped by Python `str.strip()` (ASCII part; the rare
non-ASCII Unicode spaces CPython also strips are not modelled). -/
def isPySpace (c : Char) : Bool :=
  c = ' ' || c = '\t' || c = '\n' || c = '\r' || c = '\x0b' || c = '\x0c'

/-- Python `str.strip()`. -/
def pyStrip (s : String) : String :=
  ⟨((s.data.dropWhile isPySpace).reverse.dropWhile isPySpace).reverse⟩

/-- Python `needle in hay` on strings: contiguous substring test. -/
def containsSub (needle : List Char) : List Char → Bool
  | [] => needle.isEmpty
  | c :: rest => needle.isPrefixOf (c :: rest) || containsSub needle rest

/-! ## JSON serialization (`json.dumps`)

Compact form uses CPython's default separators `", "` and `": "`;
`ensure_ascii=True` escapes every character outside `0x20`-`0x7e`,
non-BMP characters as a UTF-16 surrogate pair. -/

/-- Four-hex-digit escape `\uXXXX` for a code unit below `0x10000`. -/
def uEsc (n : Nat) : List Char :=
  ['\\', 'u', hexChar (n / 4096 % 16), hexChar (n / 256 % 16),
   hexChar (n / 16 % 16), hexChar (n % 16)]

/-- Escape one character the way `json.dumps` (ensure_ascii) does. -/
def escChar (c : Char) : List Char :=
  if c = '"' then ['\\', '"']
  else if c = '\\' then ['\\', '\\']
  else if c = '\n' then ['\\', 'n']
  else if c = '\r' then ['\\', 'r']
  else if c = '\t' then ['\\', 't']
  else if c = '\x08' then ['\\', 'b']
  else if c = '\x0c' then ['\\', 'f']
  else if c.toNat < 0x20 || 0x7f ≤ c.toNat then
    if c.toNat < 0x10000 then uEsc c.toNat
    else uEsc (0xd800 + (c.toNat - 0x10000) / 0x400) ++
         uEsc (0xdc00 + (c.toNat - 0x10000) % 0x400)
  else [c]

/-- Escape a character list (string body, without the enclosing quotes). -/
def escChars : List Char → List Char
  | [] => []
  | c :: cs => escChar c ++ escChars cs

/-- Render the JSON number `m * 10 ^ e`: integers plainly, negative
exponents in decimal-point form, positive exponents with `e`. -/
def numChars (m e : Int) : List Char :=
  if e = 0 then intChars m
  else if 0 < e then intChars m ++ 'e' :: digitsOf e.toNat
  else if m < 0 then
    '-' :: (digitsOf (m.natAbs / 10 ^ (-e).toNat) ++
      '.' :: padZeros (-e).toNat (digitsOf (m.natAbs % 10 ^ (-e).toNat)))
  else
    digitsOf (m.natAbs / 10 ^ (-e).toNat) ++
      '.' :: padZeros (-e).toNat (digitsOf (m.natAbs % 10 ^ (-e).toNat))

mutual

/-- Characters of `json.dumps(v)` (compact, default separators). -/
def dumpChars : JValue → List Char
  | .num m e => numChars m e
  | .str s => '"' :: (escChars s.data ++ ['"'])
  | .bool false => ['f', 'a', 'l', 's', 'e']
  | .bool true => ['t', 'r', 'u', 'e']
  | .null => ['n', 'u', 'l', 'l']
  | .arr [] => ['[', ']']
  | .arr (x :: xs) => '[' :: (dumpChars x ++ dumpItems xs) ++ [']']
  | .obj [] => ['\x7b', '\x7d']
  | .obj ((k, v) :: ps) =>
      '\x7b' :: '"' :: (escChars k.data ++
        '"' :: ':' :: ' ' :: (dumpChars v ++ dumpMembers ps)) ++ ['\x7d']

/-- Remaining array items, each preceded by `", "`. -/
def dumpItems : List JValue → List Char
  | [] => []
  | x :: xs => ',' :: ' ' :: (dumpChars x ++ dumpItems xs)

/-- Remaining object members, each preceded by `", "`. -/
def dumpMembers : List (String × JValue) → List Char
  | [] => []
  | (k, v) :: ps =>
      ',' :: ' ' :: '"' :: (escChars k.data ++
        '"' :: ':' :: ' ' :: (dumpChars v ++ dumpMembers ps))

end

/-- Python `json.dumps(v)` with default options. -/
def dumps (v : JValue) : String := ⟨dumpChars v⟩

mutual

/-- Characters of `json.dumps(v, indent=2)` at nesting depth `d`. -/
def dumpInd : Nat → JValue → List Char
  | _, .num m e => numChars m e
  | _, .str s => '"' :: (escChars s.data ++ ['"'])
  | _, .bool false => ['f', 'a', 'l', 's', 'e']
  | _, .bool true => ['t', 'r', 'u', 'e']
  | _, .null => ['n', 'u', 'l', 'l']
  | _, .arr [] => ['[', ']']
  | d, .arr (x :: xs) =>
      '[' :: '\n' :: (List.replicate (2 * (d + 1)) ' ' ++
        (dumpInd (d + 1) x ++ dumpIndItems (d + 1) xs)) ++
        '\n' :: (List.replicate (2 * d) ' ' ++ [']'])
  | _, .obj [] => ['\x7b', '\x7d']
  | d, .obj ((k, v) :: ps) =>
      '\x7b' :: '\n' :: (List.replicate (2 * (d + 1)) ' ' ++
        '"' :: (escChars k.data ++ '"' :: ':' :: ' ' ::
          (dumpInd (d + 1) v ++ dumpIndMembers (d + 1) ps))) ++
        '\n' :: (List.replicate (2 * d) ' ' ++ ['\x7d'])

/-- Remaining indented array items, each preceded by `",\n"` and padding. -/
def dumpIndItems : Nat → List JValue → List Char
  | _, [] => []
  | d, x :: xs =>
      ',' :: '\n' :: (List.replicate (2 * d) ' ' ++
        (dumpInd d x ++ dumpIndItems d xs))

/-- Remaining indented object members, each preceded by `",\n"` and padding. -/
def dumpIndMembers : Nat → List (String × JValue) → List Char
  | _, [] => []
  | d, (k, v) :: ps =>
      ',' :: '\n' :: (List.replicate (2 * d) ' ' ++
        '"' :: (escChars k.data ++ '"' :: ':' :: ' ' ::
          (dumpInd d v ++ dumpIndMembers d ps)))

end

/-- Python `json.dumps(v, indent=2)`. -/
def dumpsIndent2 (v : JValue) : String := ⟨dumpInd 0 v⟩

/-! ## JSON parsing (`json.loads`, strict mode)

One divergence from CPython: `json.loads` accepts lone UTF-16 surrogate
escapes and builds a Python string containing a lone surrogate, which a Lean
`Char` cannot represent; the model rejects them.  Fractional/exponent
literals become exact decimals rather than IEEE floats (see module header).
-/

/-- Skip JSON inter-token whitespace. -/
def skipWs (cs : List Char) : List Char := cs.dropWhile isJsonWs

/-- Prepend a decoded character to a string-body parse result. -/
def mapCons (c : Char) (o : Option (List Char × List Char)) :
    Option (List Char × List Char) :=
  o.map fun p => (c :: p.1, p.2)

/-- Value of four hexadecimal digit characters, if they all are ones. -/
def decodeHex4 (h1 h2 h3 h4 : Char) : Option Nat :=
  match hexVal h1, hexVal h2, hexVal h3, hexVal h4 with
  | some a, some b, some c, some d => some (a * 4096 + b * 256 + c * 16 + d)
  | _, _, _, _ => none

/-- The single-character JSON escapes. -/
def escMap (c : Char) : Option Char :=
  if c = '"' then some '"'
  else if c = '\\' then some '\\'
  else if c = '/' then some '/'
  else if c = 'b' then some '\x08'
  else if c = 'f' then some '\x0c'
  else if c = 'n' then some '\n'
  else if c = 'r' then some '\r'
  else if c = 't' then some '\t'
  else none

/-- Decode the second half of a surrogate pair: expects `\uXXXX` with a low
surrogate value and combines it with the high surrogate `n`. -/
def unescapeLow (n : Nat) : List Char → Option (Char × List Char)
  | b1 :: u1 :: g1 :: g2 :: g3 :: g4 :: rest2 =>
    if b1 = '\\' then
      if u1 = 'u' then
        (decodeHex4 g1 g2 g3 g4).bind fun n2 =>
          if 0xdc00 ≤ n2 ∧ n2 < 0xe000 then
            some (Char.ofNat (0x10000 + (n - 0xd800) * 0x400 + (n2 - 0xdc00)), rest2)
          else none
      else none
    else none
  | _ => none

/-- Interpret a decoded `\uXXXX` value: a scalar directly, a high surrogate
by pairing it with the following `\uXXXX` escape; lone surrogates fail
(CPython would build a lone-surrogate string no Lean `Char` can hold). -/
def unescapeUVal (n : Nat) (rest : List Char) : Option (Char × List Char) :=
  if n < 0xd800 ∨ 0xe000 ≤ n then some (Char.ofNat n, rest)
  else if n < 0xdc00 then unescapeLow n rest
  else none

/-- Decode a `u`-escape body: four hex digits, then scalar interpretation. -/
def unescapeU : List Char → Option (Char × List Char)
  | h1 :: h2 :: h3 :: h4 :: rest =>
    (decodeHex4 h1 h2 h3 h4).bind fun n => unescapeUVal n rest
  | _ => none

/-- Decode what follows a backslash inside a JSON string. -/
def unescapeEsc : List Char → Option (Char × List Char)
  | [] => none
  | e :: cs =>
    match escMap e with
    | some ch => some (ch, cs)
    | none => if e = 'u' then unescapeU cs else none

/-- Decode one character of a JSON string body: a raw character (strict
mode rejects raw control characters) or an escape sequence.  Fails on a
closing quote, which the caller handles. -/
def unescapeHead : List Char → Option (Char × List Char)
  | [] => none
  | c :: cs =>
    if c = '"' then none
    else if c = '\\' then unescapeEsc cs
    else if c.toNat < 0x20 then none
    else some (c, cs)

/-- Parse a JSON string body after the opening quote: returns the decoded
characters and the input after the closing quote.  The fuel only makes the
recursion structural; each step consumes input, so any fuel above the input
length is enough. -/
def parseStringBody : Nat → List Char → Option (List Char × List Char)
  | 0, _ => none
  | fuel + 1, cs =>
    match cs with
    | [] => none
    | c :: cs2 =>
      if c = '"' then some ([], cs2)
      else
        match unescapeHead (c :: cs2) with
        | some (ch, rest) => mapCons ch (parseStringBody fuel rest)
        | none => none

/-- Parse a JSON string body with ample fuel. -/
def parseStr (cs : List Char) : Option (List Char × List Char) :=
  parseStringBody (cs.length + 1) cs

/-- Numeric value of a decimal digit string. -/
def digitsVal (ds : List Char) : Nat :=
  ds.foldl (fun a c => a * 10 + (c.toNat - 48)) 0

/-- Parse the integer part of a JSON number: a single `0`, or a nonzero
digit followed by any digits. -/
def parseIntDigits : List Char → Option (Nat × List Char)
  | [] => none
  | c :: rest =>
    if c = '0' then some (0, rest)
    else if c.isDigit then
      some (digitsVal ((c :: rest).takeWhile Char.isDigit),
        (c :: rest).dropWhile Char.isDigit)
    else none

/-- Parse an optional fraction: returns its value, digit count, and rest. -/
def parseFrac : List Char → Option (Nat × Nat × List Char)
  | [] => some (0, 0, [])
  | c :: rest =>
    if c = '.' then
      if (rest.takeWhile Char.isDigit).isEmpty then none
      else some (digitsVal (rest.takeWhile Char.isDigit),
        (rest.takeWhile Char.isDigit).length, rest.dropWhile Char.isDigit)
    else some (0, 0, c :: rest)

/-- Parse exponent digits with the given sign applied. -/
def parseExpDigits (neg : Bool) (cs : List Char) : Option (Int × List Char) :=
  if (cs.takeWhile Char.isDigit).isEmpty then none
  else
    let v : Int := digitsVal (cs.takeWhile Char.isDigit)
    some (if neg then -v else v, cs.dropWhile Char.isDigit)

/-- Parse an exponent body: optional sign, then digits. -/
def parseExpSigned : List Char → Option (Int × List Char)
  | [] => parseExpDigits false []
  | c2 :: r =>
    if c2 = '+' then parseExpDigits false r
    else if c2 = '-' then parseExpDigits true r
    else parseExpDigits false (c2 :: r)

/-- Parse an optional exponent part. -/
def parseExp : List Char → Option (Int × List Char)
  | [] => some (0, [])
  | c :: rest =>
    if c = 'e' ∨ c = 'E' then parseExpSigned rest
    else some (0, c :: rest)

/-- Parse the digits of a JSON number after the optional minus sign. -/
def parseNumCore (neg : Bool) (cs : List Char) : Option (JValue × List Char) :=
  match parseIntDigits cs with
  | none => none
  | some (i, cs2) =>
    match parseFrac cs2 with
    | none => none
    | some (f, k, cs3) =>
      match parseExp cs3 with
      | none => none
      | some (ex, cs4) =>
        let mag : Int := (i * 10 ^ k + f : Nat)
        some (.num (if neg then -mag else mag) (ex - (k : Int)), cs4)

/-- Parse a JSON number into its decimal mantissa/exponent form. -/
def parseNum (cs : List Char) : Option (JValue × List Char) :=
  match cs with
  | [] => none
  | c :: rest =>
    if c = '-' then parseNumCore true rest else parseNumCore false (c :: rest)

mutual

/-- Parse one JSON value, consuming leading whitespace.  The fuel bounds the
container-nesting recursion; `loads` supplies more than any input can use. -/
def parseVal : Nat → List Char → Option (JValue × List Char)
  | 0, _ => none
  | fuel + 1, cs =>
    match skipWs cs with
    | [] => none
    | c :: rest =>
      if c = 'n' then
        match rest with
        | 'u' :: 'l' :: 'l' :: r => some (.null, r)
        | _ => none
      else if c = 't' then
        match rest with
        | 'r' :: 'u' :: 'e' :: r => some (.bool true, r)
        | _ => none
      else if c = 'f' then
        match rest with
        | 'a' :: 'l' :: 's' :: 'e' :: r => some (.bool false, r)
        | _ => none
      else if c = '"' then (parseStr rest).map fun p => (.str ⟨p.1⟩, p.2)
      else if c = '[' then
        (parseItems fuel (skipWs rest)).map fun p => (.arr p.1, p.2)
      else if c = '\x7b' then
        (parseMembers fuel (skipWs rest)).map fun p => (.obj p.1, p.2)
      else parseNum (c :: rest)

/-- Parse array items after `[` (input already whitespace-skipped). -/
def parseItems : Nat → List Char → Option (List JValue × List Char)
  | 0, _ => none
  | fuel + 1, cs =>
    match cs with
    | [] => none
    | c :: rest =>
      if c = ']' then some ([], rest)
      else
        match parseVal fuel (c :: rest) with
        | some (v, r) => (parseItemsRest fuel (skipWs r)).map fun p => (v :: p.1, p.2)
        | none => none

/-- Parse `, item` repetitions or the closing `]`. -/
def parseItemsRest : Nat → List Char → Option (List JValue × List Char)
  | 0, _ => none
  | fuel + 1, cs =>
    match cs with
    | [] => none
    | c :: rest =>
      if c = ']' then some ([], rest)
      else if c = ',' then
        match parseVal fuel rest with
        | some (v, r) => (parseItemsRest fuel (skipWs r)).map fun p => (v :: p.1, p.2)
        | none => none
      else none

/-- Parse one `"key": value` member, input starting after the key's
opening quote. -/
def parseMember : Nat → List Char → Option ((String × JValue) × List Char)
  | 0, _ => none
  | fuel + 1, cs =>
    match parseStr cs with
    | some (k, r1) =>
      match skipWs r1 with
      | [] => none
      | c :: r2 =>
        if c = ':' then
          match parseVal fuel r2 with
          | some (v, r3) => some ((⟨k⟩, v), r3)
          | none => none
        else none
    | none => none

/-- Parse object members after `\x7b` (input already whitespace-skipped). -/
def parseMembers : Nat → List Char → Option (List (String × JValue) × List Char)
  | 0, _ => none
  | fuel + 1, cs =>
    match cs with
    | [] => none
    | c :: rest =>
      if c = '\x7d' then some ([], rest)
      else if c = '"' then
        match parseMember fuel rest with
        | some (p, r) => (parseMembersRest fuel (skipWs r)).map fun q => (p :: q.1, q.2)
        | none => none
      else none

/-- Parse `, "key": value` repetitions or the closing `\x7d`. -/
def parseMembersRest : Nat → List Char → Option (List (String × JValue) × List Char)
  | 0, _ => none
  | fuel + 1, cs =>
    match cs with
    | [] => none
    | c :: rest =>
      if c = '\x7d' then some ([], rest)
      else if c = ',' then
        match skipWs rest with
        | [] => none
        | c2 :: kr =>
          if c2 = '"' then
            match parseMember fuel kr with
            | some (p, r) => (parseMembersRest fuel (skipWs r)).map fun q => (p :: q.1, q.2)
            | none => none
          else none
      else none

end

/-- Python `json.loads`: parse, then require only whitespace to remain. -/
def loads (s : String) : Option JValue :=
  match parseVal (s.data.length + 2) s.data with
  | some (v, rest) => if skipWs rest = [] then some v else none
  | none => none

/-! ## Python runtime operations used by `app.py`

Raised exceptions are `Except.error ⟨msg⟩`; the message texts approximate
CPython's (no claim depends on the exact wording). -/

/-- A raised Python exception; `msg` models `str(e)`. -/
structure PyErr where
  msg : String
deriving Repr, DecidableEq

/-- Python type name of a JSON value (used in exception messages).  JSON
integers and decimals both print here; the int/float split of `num` values
follows the source literal's shape. -/
def typeName : JValue → String
  | .null => "NoneType"
  | .bool _ => "bool"
  | .num _ e => if e = 0 then "int" else "float"
  | .str _ => "str"
  | .arr _ => "list"
  | .obj _ => "dict"

/-- First binding of a key in an association list (CPython dicts have
unique keys; on the model's lists the first occurrence wins). -/
def lookupKV (kvs : List (String × JValue)) (k : String) : Option JValue :=
  match kvs with
  | [] => none
  | (k1, v) :: rest => if k1 = k then some v else lookupKV rest k

/-- Python `k in d` for a dict. -/
def containsKey (kvs : List (String × JValue)) (k : String) : Bool :=
  (lookupKV kvs k).isSome

/-- Python `k in v` on a JSON value: dict key test, list membership test,
substring test on strings; raises `TypeError` otherwise. -/
def pyContains (v : JValue) (k : String) : Except PyErr Bool :=
  match v with
  | .obj kvs => .ok (containsKey kvs k)
  | .arr xs => .ok (xs.any fun x => x == .str k)
  | .str s => .ok (containsSub k.data s.data)
  | other =>
      .error ⟨"argument of type \x27" ++ typeName other ++ "\x27 is not iterable"⟩

/-- Python `v[k]` with a string key: dict lookup; raises on anything else. -/
def pyIndex (v : JValue) (k : String) : Except PyErr JValue :=
  match v with
  | .obj kvs =>
    match lookupKV kvs k with
    | some x => .ok x
    | none => .error ⟨"KeyError: \x27" ++ k ++ "\x27"⟩
  | .arr _ => .error ⟨"list indices must be integers or slices, not str"⟩
  | .str _ => .error ⟨"string indices must be integers"⟩
  | other =>
      .error ⟨"\x27" ++ typeName other ++ "\x27 object is not subscriptable"⟩

/-- Python `v.get(k, default)`: dict method; raises `AttributeError` on
non-dicts. -/
def pyGet (v : JValue) (k : String) (dflt : JValue) : Except PyErr JValue :=
  match v with
  | .obj kvs => .ok ((lookupKV kvs k).getD dflt)
  | other =>
      .error ⟨"\x27" ++ typeName other ++ "\x27 object has no attribute \x27get\x27"⟩

/-- Message of the `AttributeError` raised by `x.strip()` on a non-string. -/
def stripErr (v : JValue) : PyErr :=
  ⟨"\x27" ++ typeName v ++ "\x27 object has no attribute \x27strip\x27"⟩

/-! ## Time -/

/-- Components of `datetime.now()`. -/
structure DateTime where
  year : Nat
  month : Nat
  day : Nat
  hour : Nat
  minute : Nat
  second : Nat
deriving Repr, DecidableEq

/-- Component ranges `datetime.now()` always satisfies (CPython datetimes
carry years 1-9999). -/
def DateTime.wf (d : DateTime) : Prop :=
  d.year ≤ 9999 ∧ 1 ≤ d.month ∧ d.month ≤ 12 ∧ 1 ≤ d.day ∧ d.day ≤ 31 ∧
    d.hour ≤ 23 ∧ d.minute ≤ 59 ∧ d.second ≤ 59

instance (d : DateTime) : Decidable d.wf := by
  unfold DateTime.wf; infer_instance

/-- Python `datetime.now().strftime('%Y-%m-%d %H:%M:%S')`. -/
def formatTS (d : DateTime) : String :=
  ⟨padZeros 4 (digitsOf d.year) ++ '-' :: (padZeros 2 (digitsOf d.month) ++
    '-' :: (padZeros 2 (digitsOf d.day) ++ ' ' :: (padZeros 2 (digitsOf d.hour) ++
      ':' :: (padZeros 2 (digitsOf d.minute) ++
        ':' :: padZeros 2 (digitsOf d.second)))))⟩

/-- Does a string have the exact shape `YYYY-MM-DD HH:MM:SS`? -/
def tsMatches (s : String) : Bool :=
  match s.data with
  | [y1, y2, y3, y4, c1, m1, m2, c2, d1, d2, c3, h1, h2, c4, n1, n2, c5, s1, s2] =>
    y1.isDigit && y2.isDigit && y3.isDigit && y4.isDigit && c1 = '-' &&
    m1.isDigit && m2.isDigit && c2 = '-' && d1.isDigit && d2.isDigit &&
    c3 = ' ' && h1.isDigit && h2.isDigit && c4 = ':' && n1.isDigit &&
    n2.isDigit && c5 = ':' && s1.isDigit && s2.isDigit
  | _ => false

/-! ## The network -/

/-- One outbound `requests.post(url, headers=..., json=data, timeout=30)`
call as issued by `get_ai_response`. -/
structure HttpRequest where
  url : String
  headers : List (String × String)
  payload : JValue
deriving Repr, DecidableEq

/-- The fields of a `requests` response the program reads. -/
structure NetResponse where
  status_code : Nat
  text : String
deriving Repr, DecidableEq

/-- The network oracle: what the world answers to a request, or the
exception `requests.post` raises (timeout, connection error, ...). -/
def Net : Type := HttpRequest → Except PyErr NetResponse

/-- Model of `response.json()`: parse `response.text`, raising
`JSONDecodeError` on failure. -/
def responseJson (resp : NetResponse) : Except PyErr JValue :=
  match loads resp.text with
  | some v => .ok v
  | none => .error ⟨"Expecting value: line 1 column 1 (char 0)"⟩

/-! ## `get_ai_response` (src/app.py lines 162-257) -/

/-- Fixed reply when no API key is configured (line 169). -/
def unavailableMsg : String :=
  "I\x27m having trouble connecting to the AI service. Please check that the API key is configured correctly."

/-- The system prompt (lines 172-185), including its trailing spaces. -/
def systemPrompt : String :=
  "You are a helpful AI meal planning assistant. You help users plan their meals based on their dietary preferences, restrictions, and goals. \n\nKey guidelines:\n- Ask about dietary restrictions (vegetarian, vegan, gluten-free, etc.)\n- Consider nutritional balance\n- Suggest specific meals and recipes\n- Be encouraging and helpful\n- Keep responses concise but informative\n\nUser preferences to remember:\n- Dietary restrictions\n- Cuisine preferences  \n- Cooking skill level\n- Time constraints"

/-- Primary (international) endpoint (line 188). -/
def intlUrl : String :=
  "https://dashscope-intl.aliyuncs.com/api/v1/services/aigc/text-generation/generation"

/-- Fallback (regional) endpoint (line 239). -/
def regionalUrl : String :=
  "https://dashscope.aliyuncs.com/api/v1/services/aigc/text-generation/generation"

/-- Canned suggestion returned on a 200 response without `output.text`
(line 232). -/
def cannedSuggestion : String :=
  "I received your message about meal planning! Here\x27s a personalized suggestion: For a healthy vegetarian lunch, try a quinoa bowl with roasted vegetables, chickpeas, and tahini dressing. It\x27s nutritious and delicious!"

/-- Fixed reply when the last observed status is 401 (line 250). -/
def apiKeyTrouble : String :=
  "I\x27m having trouble with my API key. Please check that it\x27s correctly configured. Meanwhile, here\x27s a suggestion: For a healthy vegetarian lunch, try a colorful salad with quinoa, roasted vegetables, and protein like chickpeas or tofu!"

/-- Fixed reply for any other non-success status (line 252). -/
def genericFallback : String :=
  "I\x27m having some technical difficulties right now, but I\x27d love to help you plan healthy meals! For a vegetarian lunch, I suggest a nutrient-packed bowl with quinoa, fresh vegetables, and a protein source."

/-- Fixed reply produced by the `except` handler (line 257). -/
def exceptionFallback : String :=
  "I received your message about meal planning. I\x27m having some technical difficulties right now, but here\x27s a great suggestion: Try a Mediterranean-style quinoa bowl with chickpeas, cucumber, tomatoes, and olive oil dressing for a healthy vegetarian lunch!"

/-- The request headers built at lines 190-193. -/
def aiHeaders (key : String) : List (String × String) :=
  [("Authorization", "Bearer " ++ key), ("Content-Type", "application/json")]

/-- The request payload built at lines 195-213 (`temperature` is the
decimal 0.7, `max_tokens` the integer 500). -/
def aiPayload (user_message : String) : JValue :=
  .obj [("model", .str "qwen-turbo"),
    ("input", .obj [("messages", .arr
      [.obj [("role", .str "system"), ("content", .str systemPrompt)],
       .obj [("role", .str "user"), ("content", .str user_message)]])]),
    ("parameters", .obj [("max_tokens", .num 500 0), ("temperature", .num 7 (-1))])]

/-- Truthiness of `MODEL_STUDIO_API_KEY` at line 168 (`None` and the empty
string are falsy). -/
def keyTruthy : Option String → Bool
  | none => false
  | some s => s ≠ ""

/-- Model of `'output' in response_data and 'text' in response_data['output']`
followed by the read of `response_data['output']['text']`
(lines 228-230, 245-246): the extracted text if both checks pass. -/
def outputTextCheck (rd : JValue) : Except PyErr (Option JValue) := do
  let b1 ← pyContains rd "output"
  if b1 then
    let out ← pyIndex rd "output"
    let b2 ← pyContains out "text"
    if b2 then
      let t ← pyIndex out "text"
      pure (some t)
    else pure none
  else pure none

/-- The fallback chosen at lines 249-252 from the last observed response. -/
def statusFallback (resp : NetResponse) : JValue :=
  if resp.status_code = 401 then .str apiKeyTrouble else .str genericFallback

/-- Lines 224-232: a 200 response from the primary endpoint - extract
`output.text`, or fall back to the canned suggestion. -/
def aiOn200 (resp : NetResponse) (tr : List HttpRequest) :
    Except PyErr JValue × List HttpRequest :=
  match responseJson resp with
  | .error e => (.error e, tr)
  | .ok rd =>
    match outputTextCheck rd with
    | .error e => (.error e, tr)
    | .ok (some t) => (.ok t, tr)
    | .ok none => (.ok (.str cannedSuggestion), tr)

/-- Lines 236-252: the primary call was not a 200 - retry once against the
regional endpoint when the URL was the international one (it always is),
then fall through to the status-based fallback on the LAST response seen. -/
def aiRetry (k user_message : String) (net : Net) (resp1 : NetResponse) :
    Except PyErr JValue × List HttpRequest :=
  let req1 : HttpRequest := ⟨intlUrl, aiHeaders k, aiPayload user_message⟩
  if containsSub "dashscope-intl".data intlUrl.data then
    let req2 : HttpRequest := ⟨regionalUrl, aiHeaders k, aiPayload user_message⟩
    match net req2 with
    | .error e => (.error e, [req1, req2])
    | .ok resp2 =>
      if resp2.status_code = 200 then
        match responseJson resp2 with
        | .error e => (.error e, [req1, req2])
        | .ok rd =>
          match outputTextCheck rd with
          | .error e => (.error e, [req1, req2])
          | .ok (some t) => (.ok t, [req1, req2])
          | .ok none => (.ok (statusFallback resp2), [req1, req2])
      else (.ok (statusFallback resp2), [req1, req2])
  else (.ok (statusFallback resp1), [req1])

/-- Body of the `try` block of `get_ai_response` (lines 166-252), together
with the list of network requests issued, in order. -/
def aiCore (key : Option String) (net : Net) (user_message : String) :
    Except PyErr JValue × List HttpRequest :=
  if keyTruthy key = false then (.ok (.str unavailableMsg), [])
  else
    let k := key.getD ""
    let req1 : HttpRequest := ⟨intlUrl, aiHeaders k, aiPayload user_message⟩
    match net req1 with
    | .error e => (.error e, [req1])
    | .ok resp =>
      if resp.status_code = 200 then aiOn200 resp [req1]
      else aiRetry k user_message net resp

/-- `get_ai_response(user_message, user_id)`: the `try` body with every
exception converted to the fixed fallback of line 257.  `user_id` is
accepted and unused, as in the source.  The second component is the list of
outbound requests made. -/
def get_ai_response (key : Option String) (net : Net)
    (user_message : String) (user_id : JValue) : JValue × List HttpRequest :=
  match aiCore key net user_message with
  | (.ok v, tr) => (v, tr)
  | (.error _, tr) => (.str exceptionFallback, tr)

/-! ## `handler` (src/app.py lines 18-160) -/

/-- The HTTP-shaped mapping the handler returns to the platform. -/
structure HttpResult where
  statusCode : Nat
  headers : List (String × String)
  body : String
deriving Repr, DecidableEq

/-- Ambient configuration: the API key read at import time, the network,
and the wall-clock time `datetime.now()` reads. -/
structure Config where
  apiKey : Option String
  net : Net
  now : DateTime

/-- Body-location fallbacks of lines 35-50: `event['body']`, then
`event['data']`, then the whole event serialized as JSON. -/
def extractBodyStr (event : Event) : JValue :=
  match lookupKV event "body" with
  | some v => v
  | none =>
    match lookupKV event "data" with
    | some v => v
    | none => .str (dumps (.obj event))

/-- Body parsing of lines 56-68: parse a nonempty string (falling back to
the raw event mapping on a decode error), pass a dict through, and turn
anything else - including the falsy empty string - into `\x7b\x7d`. -/
def parseBody (event : Event) : JValue :=
  match extractBodyStr event with
  | .str s =>
    if s = "" then .obj []
    else
      match loads s with
      | some v => v
      | none => .obj event
  | .obj kvs => .obj kvs
  | _ => .obj []

/-- Message extraction of lines 70-89: `body['message']` directly (with
`body.get('user_id', 'anonymous')`), else a nested JSON-encoded
`body['body']` string whose parse failures are swallowed by the bare
`except: pass`. -/
def extractMsg (body : JValue) : Except PyErr (JValue × JValue) := do
  let hasMsg ← pyContains body "message"
  if hasMsg then
    let m ← pyIndex body "message"
    let u ← pyGet body "user_id" (.str "anonymous")
    pure (m, u)
  else
    let hasBody ← pyContains body "body"
    if hasBody then
      let bv ← pyIndex body "body"
      match bv with
      | .str s =>
        match loads s with
        | some (.obj kvs) =>
          pure ((lookupKV kvs "message").getD (.str ""),
            (lookupKV kvs "user_id").getD (.str "anonymous"))
        | _ => pure (.str "", .str "anonymous")
      | _ => pure (.str "", .str "anonymous")
    else pure (.str "", .str "anonymous")

/-- The debug reply of line 97: the event pretty-printed with `indent=2`,
truncated to its first 500 characters. -/
def debugResponse (event : Event) : String :=
  "[DEBUG] Could not extract message. Event structure: " ++
    String.mk ((dumpsIndent2 (.obj event)).data.take 500) ++ "..."

/-- Headers of the POST success response (lines 107-112). -/
def postHeaders : List (String × String) :=
  [("Content-Type", "application/json"),
   ("Access-Control-Allow-Origin", "*"),
   ("Access-Control-Allow-Methods", "POST, GET, OPTIONS"),
   ("Access-Control-Allow-Headers", "Content-Type")]

/-- Headers of the GET response (lines 126-129). -/
def getHeaders : List (String × String) :=
  [("Content-Type", "application/json"),
   ("Access-Control-Allow-Origin", "*")]

/-- Headers of the OPTIONS response (lines 137-141). -/
def optionsHeaders : List (String × String) :=
  [("Access-Control-Allow-Origin", "*"),
   ("Access-Control-Allow-Methods", "POST, GET, OPTIONS"),
   ("Access-Control-Allow-Headers", "Content-Type")]

/-- Headers of the 500 error response (lines 155-158). -/
def errHeaders : List (String × String) :=
  [("Content-Type", "application/json"),
   ("Access-Control-Allow-Origin", "*")]

/-- The GET status payload (lines 118-122). -/
def getResponseData (now : DateTime) : JValue :=
  .obj [("status", .str "AI Meal Planner is running!"),
    ("message", .str "Send a POST request with \x7b\"message\": \"your message\", \"user_id\": \"optional\"\x7d to chat with me."),
    ("timestamp", .str (formatTS now))]

/-- The POST success result: response value and fresh timestamp wrapped in
JSON (lines 100-114). -/
def chatResult (resp : JValue) (now : DateTime) : HttpResult :=
  ⟨200, postHeaders,
    dumps (.obj [("response", resp), ("timestamp", .str (formatTS now))])⟩

/-- Line 27: `event.get('httpMethod', 'GET')`. -/
def httpMethodOf (event : Event) : JValue :=
  (lookupKV event "httpMethod").getD (.str "GET")

/-- Body of the handler's `try` block (lines 22-143).  An unrecognized
method falls off the end of the `if` chain: `ok none`. -/
def handlerTry (cfg : Config) (event : Event) : Except PyErr (Option HttpResult) :=
  let http_method := httpMethodOf event
  if http_method = .str "POST" then do
    let body := parseBody event
    let mu ← extractMsg body
    match mu.1 with
    | .str m =>
      let response : JValue :=
        if pyStrip m ≠ "" then (get_ai_response cfg.apiKey cfg.net m mu.2).1
        else .str (debugResponse event)
      pure (some (chatResult response cfg.now))
    | v => .error (stripErr v)
  else if http_method = .str "GET" then
    pure (some ⟨200, getHeaders, dumps (getResponseData cfg.now)⟩)
  else if http_method = .str "OPTIONS" then
    pure (some ⟨200, optionsHeaders, ""⟩)
  else
    pure none

/-- The 500 error envelope built by the `except` handler (lines 145-160). -/
def err500 (now : DateTime) (e : PyErr) : HttpResult :=
  ⟨500, errHeaders,
    dumps (.obj [("response", .str ("Sorry, I encountered an error: " ++ e.msg)),
      ("timestamp", .str (formatTS now))])⟩

/-- `handler(event, context)`: the `try` body with any raised exception
converted to the 500 envelope.  Returns `none` exactly when the Python
function returns `None`. -/
def handler (cfg : Config) (event : Event) : Option HttpResult :=
  match handlerTry cfg event with
  | .ok r => r
  | .error e => some (err500 cfg.now e)

/-! ## Auxiliary definitions for the verification -/

/-- Is a JSON value a string? -/
def JValue.isStr : JValue → Bool
  | .str _ => true
  | _ => false

mutual

/-- Fuel sufficient for `parseVal` to parse this value's serialization. -/
def pfuel : JValue → Nat
  | .arr xs => 1 + pfuelList xs
  | .obj ps => 1 + pfuelKVs ps
  | _ => 1

/-- Fuel sufficient for `parseItems`/`parseItemsRest` on these items. -/
def pfuelList : List JValue → Nat
  | [] => 1
  | v :: vs => 1 + max (pfuel v) (pfuelList vs)

/-- Fuel sufficient for `parseMembers`/`parseMembersRest` on these members. -/
def pfuelKVs : List (String × JValue) → Nat
  | [] => 1
  | (_, v) :: ps => 1 + max (1 + pfuel v) (pfuelKVs ps)

end

mutual

/-- Structural size of a JSON value (induction measure). -/
def jsize : JValue → Nat
  | .arr xs => 1 + jsizeList xs
  | .obj ps => 1 + jsizeKVs ps
  | _ => 1

/-- Structural size of an item list. -/
def jsizeList : List JValue → Nat
  | [] => 1
  | v :: vs => 1 + jsize v + jsizeList vs

/-- Structural size of a member list. -/
def jsizeKVs : List (String × JValue) → Nat
  | [] => 1
  | (_, v) :: ps => 1 + jsize v + jsizeKVs ps

end

/-- A list whose head (if any) cannot extend a preceding number literal. -/
def numTail (cs : List Char) : Prop :=
  ∀ c, cs.head? = some c → c.isDigit = false ∧ c ≠ '.' ∧ c ≠ 'e' ∧ c ≠ 'E'

/-- A list whose head (if any) is a separator a serialized value is
followed by within a larger serialization: `,`, `]` or `\x7d`. -/
def sepTail (cs : List Char) : Prop :=
  ∀ c, cs.head? = some c → c = ',' ∨ c = ']' ∨ c = '\x7d'

/-- Modelled from the spec (claim C7's wording): body precedence
`event.body`, then `event.data`, then the serialized event; then "the body
string is parsed as JSON; if parsing fails, the raw event mapping itself is
used as the body".  Stated without the source's guard on the falsy empty
string. -/
def parseBodySpec (event : Event) : JValue :=
  match (lookupKV event "body").getD
      ((lookupKV event "data").getD (.str (dumps (.obj event)))) with
  | .str s => (loads s).getD (.obj event)
  | .obj kvs => .obj kvs
  | _ => .obj []

/-- Modelled from the spec (claim C7 as amended): as `parseBodySpec`, but
an empty extracted string becomes an empty mapping without being parsed. -/
def parseBodySpecAmended (event : Event) : JValue :=
  match (lookupKV event "body").getD
      ((lookupKV event "data").getD (.str (dumps (.obj event)))) with
  | .str s => if s = "" then .obj [] else (loads s).getD (.obj event)
  | .obj kvs => .obj kvs
  | _ => .obj []

/-! Concrete material for witnesses and counterexamples. -/

/-- A fixed wall-clock instant. -/
def dt0 : DateTime := ⟨2024, 1, 2, 3, 4, 5⟩

/-- A network on which every request raises (e.g. a timeout). -/
def netBoom : Net := fun _ => .error ⟨"Connection timed out"⟩

/-- A network whose primary endpoint answers 200 with a JSON body carrying
a non-string `output.text`. -/
def net42 : Net := fun req =>
  if req.url = intlUrl then
    .ok ⟨200, "\x7b\"output\": \x7b\"text\": 42\x7d\x7d"⟩
  else .error ⟨"unreached"⟩

/-- A network answering 401 on the primary endpoint and 500 on the
regional one. -/
def net401then500 : Net := fun req =>
  if req.url = intlUrl then .ok ⟨401, "denied"⟩ else .ok ⟨500, "error"⟩

/-- A network answering 401 on both endpoints. -/
def net401both : Net := fun _ => .ok ⟨401, "denied"⟩

/-- A network answering 500 on the primary endpoint and a well-formed
generation payload on the regional one. -/
def netRegionalOk : Net := fun req =>
  if req.url = intlUrl then .ok ⟨500, "error"⟩
  else .ok ⟨200, "\x7b\"output\": \x7b\"text\": \"Try a rice bowl.\"\x7d\x7d"⟩

/-- An event with an unrecognized HTTP method. -/
def evDelete : Event := [("httpMethod", .str "DELETE")]

/-- A well-formed chat POST event. -/
def evPostHi : Event :=
  [("httpMethod", .str "POST"),
   ("body", .str "\x7b\"message\": \"hi\", \"user_id\": \"u\"\x7d")]

/-- A POST event whose body maps `message` to a number. -/
def evPostNum : Event :=
  [("httpMethod", .str "POST"), ("body", .str "\x7b\"message\": 42\x7d")]

/-- A POST event whose body has no extractable message. -/
def evPostEmpty : Event :=
  [("httpMethod", .str "POST"), ("body", .str "\x7b\x7d")]

/-- An event with an empty-string `body` and a top-level `message` key:
the input on which claim C7's parse-failure wording mispredicts the code. -/
def evEmptyBody : Event := [("body", .str ""), ("message", .str "hi")]

/-! ## Digit lemmas -/

theorem hexChar_isDigit {d : Nat} (h : d < 10) : (hexChar d).isDigit = true := by
  interval_cases d <;> rfl

theorem hexChar_toNat {d : Nat} (h : d < 10) : (hexChar d).toNat = 48 + d := by
  interval_cases d <;> rfl

theorem hexChar_ne_zero {d : Nat} (h1 : 1 ≤ d) (h2 : d < 10) : hexChar d ≠ '0' := by
  interval_cases d <;> decide

theorem digitsAux_ne_nil (fuel n : Nat) (h : n < fuel) : digitsAux fuel n ≠ [] := by
  cases fuel with
  | zero => omega
  | succ fuel =>
    simp only [digitsAux]
    split <;> simp

theorem digitsAux_all_digit (fuel n : Nat) (h : n < fuel) :
    ∀ c ∈ digitsAux fuel n, c.isDigit = true := by
  induction fuel generalizing n with
  | zero => omega
  | succ fuel ih =>
    simp only [digitsAux]
    split
    · next hlt =>
      intro c hc
      rw [List.mem_singleton] at hc
      subst hc
      exact hexChar_isDigit hlt
    · next hge =>
      intro c hc
      rcases List.mem_append.mp hc with h1 | h1
      · exact ih (n / 10) (by omega) c h1
      · rw [List.mem_singleton] at h1
        subst h1
        exact hexChar_isDigit (Nat.mod_lt _ (by omega))

theorem digitsVal_append_digit (ds : List Char) (c : Char) :
    digitsVal (ds ++ [c]) = 10 * digitsVal ds + (c.toNat - 48) := by
  simp [digitsVal, List.foldl_append]
  omega

theorem digitsVal_digitsAux (fuel n : Nat) (h : n < fuel) :
    digitsVal (digitsAux fuel n) = n := by
  induction fuel generalizing n with
  | zero => omega
  | succ fuel ih =>
    simp only [digitsAux]
    split
    · next hlt =>
      show digitsVal [hexChar n] = n
      simp [digitsVal, hexChar_toNat hlt]
    · next hge =>
      rw [digitsVal_append_digit, ih (n / 10) (by omega),
        hexChar_toNat (Nat.mod_lt _ (by omega))]
      omega

theorem digitsAux_head (fuel n : Nat) (h : 1 ≤ n) (hf : n < fuel) :
    ∃ c cs, digitsAux fuel n = c :: cs ∧ c.isDigit = true ∧ c ≠ '0' := by
  induction fuel generalizing n with
  | zero => omega
  | succ fuel ih =>
    simp only [digitsAux]
    split
    · next hlt =>
      exact ⟨hexChar n, [], rfl, hexChar_isDigit hlt, hexChar_ne_zero h hlt⟩
    · next hge =>
      obtain ⟨c, cs, heq, hdig, hne⟩ := ih (n / 10)
        (Nat.le_div_iff_mul_le (by omega) |>.mpr (by omega)) (by omega)
      exact ⟨c, cs ++ [hexChar (n % 10)], by rw [heq]; rfl, hdig, hne⟩

theorem digitsAux_length_le (fuel : Nat) : ∀ {n k : Nat}, 1 ≤ k → n < 10 ^ k →
    n < fuel → (digitsAux fuel n).length ≤ k := by
  induction fuel with
  | zero => omega
  | succ fuel ih =>
    intro n k hk h hf
    simp only [digitsAux]
    split
    · simpa using hk
    · next hge =>
      obtain ⟨k1, rfl⟩ : ∃ k1, k = k1 + 1 := ⟨k - 1, by omega⟩
      have hk1 : 1 ≤ k1 := by
        by_contra hc
        have : k1 = 0 := by omega
        subst this
        simp at h
        omega
      have hdiv : n / 10 < 10 ^ k1 := by
        rw [Nat.div_lt_iff_lt_mul (by omega)]
        calc n < 10 ^ (k1 + 1) := h
        _ = 10 ^ k1 * 10 := by ring
      have := ih hk1 hdiv (by omega)
      simp only [List.length_append, List.length_singleton]
      omega

theorem digitsOf_ne_nil (n : Nat) : digitsOf n ≠ [] :=
  digitsAux_ne_nil _ _ (by omega)

theorem digitsOf_all_digit (n : Nat) : ∀ c ∈ digitsOf n, c.isDigit = true :=
  digitsAux_all_digit _ _ (by omega)

theorem digitsVal_digitsOf (n : Nat) : digitsVal (digitsOf n) = n :=
  digitsVal_digitsAux _ _ (by omega)

theorem digitsOf_head (n : Nat) (h : 1 ≤ n) :
    ∃ c cs, digitsOf n = c :: cs ∧ c.isDigit = true ∧ c ≠ '0' :=
  digitsAux_head _ _ h (by omega)

theorem digitsOf_length_le {n k : Nat} (hk : 1 ≤ k) (h : n < 10 ^ k) :
    (digitsOf n).length ≤ k :=
  digitsAux_length_le _ hk h (by omega)

theorem digitsOf_cons (n : Nat) :
    ∃ c cs, digitsOf n = c :: cs ∧ c.isDigit = true := by
  cases h : digitsOf n with
  | nil => exact absurd h (digitsOf_ne_nil n)
  | cons c cs => exact ⟨c, cs, rfl, digitsOf_all_digit n c (by rw [h]; simp)⟩

theorem isDigit_ne {c : Char} (h : c.isDigit = true) {x : Char}
    (hx : x.isDigit = false) : c ≠ x := by
  intro he
  rw [he, hx] at h
  exact Bool.noConfusion h

theorem digitsVal_replicate_zero (j : Nat) (ds : List Char) :
    digitsVal (List.replicate j '0' ++ ds) = digitsVal ds := by
  induction j with
  | zero => rfl
  | succ j ihj =>
    rw [List.replicate_succ, List.cons_append]
    show digitsVal (List.replicate j '0' ++ ds) = _
    exact ihj

theorem padZeros_all_digit (k : Nat) (ds : List Char)
    (h : ∀ c ∈ ds, c.isDigit = true) : ∀ c ∈ padZeros k ds, c.isDigit = true := by
  intro c hc
  rcases List.mem_append.mp hc with h1 | h1
  · rw [List.eq_of_mem_replicate h1]; rfl
  · exact h c h1

theorem padZeros_length {k : Nat} {ds : List Char} (h : ds.length ≤ k) :
    (padZeros k ds).length = k := by
  simp [padZeros]
  omega

theorem takeWhile_all_append (p : Char → Bool) (l rest : List Char)
    (hall : ∀ c ∈ l, p c = true)
    (hrest : ∀ c, rest.head? = some c → p c = false) :
    (l ++ rest).takeWhile p = l ∧ (l ++ rest).dropWhile p = rest := by
  induction l with
  | nil =>
    simp only [List.nil_append]
    cases rest with
    | nil => simp
    | cons c r =>
      have := hrest c rfl
      simp [List.takeWhile, List.dropWhile, this]
  | cons c l ihl =>
    have hc := hall c (by simp)
    have := ihl (fun x hx => hall x (by simp [hx]))
    simp [List.takeWhile, List.dropWhile, hc, this.1, this.2]

/-! ## Number round-trip -/

theorem parseIntDigits_digits (n : Nat) (rest : List Char)
    (hrest : ∀ c, rest.head? = some c → c.isDigit = false) :
    parseIntDigits (digitsOf n ++ rest) = some (n, rest) := by
  by_cases hn : n = 0
  · subst hn
    rw [show digitsOf 0 = ['0'] from rfl]
    show parseIntDigits ('0' :: rest) = _
    simp [parseIntDigits]
  · obtain ⟨c, cs, heq, hdig, hne⟩ := digitsOf_head n (by omega)
    have hall : ∀ x ∈ c :: cs, x.isDigit = true := heq ▸ digitsOf_all_digit n
    have ht := takeWhile_all_append Char.isDigit (c :: cs) rest hall hrest
    rw [heq, List.cons_append, parseIntDigits, if_neg hne, if_pos (hall c (by simp)),
      ← List.cons_append, ht.1, ht.2]
    have : digitsVal (c :: cs) = n := by rw [← heq, digitsVal_digitsOf]
    rw [this]

theorem parseFrac_skip (cs : List Char)
    (h : ∀ c, cs.head? = some c → c ≠ '.') : parseFrac cs = some (0, 0, cs) := by
  cases cs with
  | nil => rfl
  | cons c r =>
    rw [parseFrac, if_neg (h c rfl)]

theorem parseExp_skip (cs : List Char)
    (h : ∀ c, cs.head? = some c → c ≠ 'e' ∧ c ≠ 'E') :
    parseExp cs = some (0, cs) := by
  cases cs with
  | nil => rfl
  | cons c r =>
    rw [parseExp]
    rw [if_neg]
    rcases h c rfl with ⟨h1, h2⟩
    simp [h1, h2]

theorem parseExpDigits_digits (neg : Bool) (n : Nat) (rest : List Char)
    (hrest : ∀ c, rest.head? = some c → c.isDigit = false) :
    parseExpDigits neg (digitsOf n ++ rest) =
      some (if neg then -(n : Int) else (n : Int), rest) := by
  have ht := takeWhile_all_append Char.isDigit (digitsOf n) rest
    (digitsOf_all_digit n) hrest
  rw [parseExpDigits, ht.1, ht.2]
  rw [if_neg (by simpa using digitsOf_ne_nil n)]
  rw [digitsVal_digitsOf]

theorem parseExpSigned_digits (n : Nat) (rest : List Char)
    (hrest : ∀ c, rest.head? = some c → c.isDigit = false) :
    parseExpSigned (digitsOf n ++ rest) = some ((n : Int), rest) := by
  obtain ⟨c, cs, heq, hdig⟩ := digitsOf_cons n
  rw [heq, List.cons_append, parseExpSigned,
    if_neg (isDigit_ne hdig (by decide)), if_neg (isDigit_ne hdig (by decide)),
    ← List.cons_append, ← heq, parseExpDigits_digits false n rest hrest]
  simp

theorem parseFrac_pad (k x : Nat) (hk : 1 ≤ k) (hx : x < 10 ^ k)
    (rest : List Char) (hrest : ∀ c, rest.head? = some c → c.isDigit = false) :
    parseFrac ('.' :: (padZeros k (digitsOf x) ++ rest)) = some (x, k, rest) := by
  have hall : ∀ c ∈ padZeros k (digitsOf x), c.isDigit = true :=
    padZeros_all_digit k _ (digitsOf_all_digit x)
  have ht := takeWhile_all_append Char.isDigit (padZeros k (digitsOf x)) rest hall hrest
  have hlen : (padZeros k (digitsOf x)).length = k :=
    padZeros_length (digitsOf_length_le hk hx)
  have hne : padZeros k (digitsOf x) ≠ [] := by
    intro hc
    rw [hc] at hlen
    simp at hlen
    omega
  rw [parseFrac, if_pos rfl, ht.1, ht.2]
  rw [if_neg (by simpa using hne), hlen]
  have : digitsVal (padZeros k (digitsOf x)) = x := by
    rw [padZeros, digitsVal_replicate_zero, digitsVal_digitsOf]
  rw [this]

theorem numTail_not_digit {cs : List Char} (h : numTail cs) :
    ∀ c, cs.head? = some c → c.isDigit = false :=
  fun c hc => (h c hc).1

theorem parseNumCore_int (n : Nat) (neg : Bool) (rest : List Char)
    (hrest : numTail rest) :
    parseNumCore neg (digitsOf n ++ rest) =
      some (.num (if neg then -(n : Int) else (n : Int)) 0, rest) := by
  have h1 := parseIntDigits_digits n rest (numTail_not_digit hrest)
  have h2 := parseFrac_skip rest (fun c hc => (hrest c hc).2.1)
  have h3 := parseExp_skip rest (fun c hc => ⟨(hrest c hc).2.2.1, (hrest c hc).2.2.2⟩)
  simp only [parseNumCore, h1, h2, h3]
  simp

theorem parseNumCore_exp (n : Nat) (ex : Nat) (neg : Bool) (rest : List Char)
    (hrest : numTail rest) :
    parseNumCore neg (digitsOf n ++ 'e' :: (digitsOf ex ++ rest)) =
      some (.num (if neg then -(n : Int) else (n : Int)) ex, rest) := by
  have h1 := parseIntDigits_digits n ('e' :: (digitsOf ex ++ rest)) (fun c hc => by
    rw [List.head?_cons] at hc
    cases hc
    rfl)
  have h2 := parseFrac_skip ('e' :: (digitsOf ex ++ rest)) (fun c hc => by
    rw [List.head?_cons] at hc
    cases hc
    decide)
  have h3 : parseExp ('e' :: (digitsOf ex ++ rest)) = some ((ex : Int), rest) := by
    rw [parseExp, if_pos (Or.inl rfl),
      parseExpSigned_digits ex rest (numTail_not_digit hrest)]
  simp only [parseNumCore, h1, h2, h3]
  simp

theorem parseNumCore_dec (a k x : Nat) (hk : 1 ≤ k) (hx : x < 10 ^ k)
    (neg : Bool) (rest : List Char) (hrest : numTail rest) :
    parseNumCore neg (digitsOf a ++ '.' :: (padZeros k (digitsOf x) ++ rest)) =
      some (.num (if neg then -((a * 10 ^ k + x : Nat) : Int)
        else ((a * 10 ^ k + x : Nat) : Int)) (0 - (k : Int)), rest) := by
  have h1 := parseIntDigits_digits a ('.' :: (padZeros k (digitsOf x) ++ rest))
    (fun c hc => by
      rw [List.head?_cons] at hc
      cases hc
      rfl)
  have h2 := parseFrac_pad k x hk hx rest (numTail_not_digit hrest)
  have h3 := parseExp_skip rest (fun c hc => ⟨(hrest c hc).2.2.1, (hrest c hc).2.2.2⟩)
  simp only [parseNumCore, h1, h2, h3]

theorem parseNum_intChars (m : Int) (cs : List Char) :
    parseNum (intChars m ++ cs) =
      if m < 0 then parseNumCore true (digitsOf m.natAbs ++ cs)
      else parseNumCore false (digitsOf m.natAbs ++ cs) := by
  rw [intChars]
  by_cases hm : m < 0
  · rw [if_pos hm, if_pos hm, List.cons_append]
    simp only [parseNum]
    rw [if_pos trivial]
  · rw [if_neg hm, if_neg hm]
    obtain ⟨c, cs2, heq, hdig⟩ := digitsOf_cons m.natAbs
    rw [heq, List.cons_append]
    simp only [parseNum]
    rw [if_neg (isDigit_ne hdig (by decide)), ← List.cons_append, ← heq]

theorem intCast_natAbs_neg {m : Int} (hm : m < 0) : -((m.natAbs : Nat) : Int) = m := by
  rw [Int.ofNat_natAbs_of_nonpos (by omega)]
  omega

theorem intCast_natAbs_nonneg {m : Int} (hm : ¬m < 0) : ((m.natAbs : Nat) : Int) = m :=
  Int.natAbs_of_nonneg (by omega)

/-- Parsing inverts number rendering. -/
theorem parseNum_numChars (m e : Int) (rest : List Char) (hrest : numTail rest) :
    parseNum (numChars m e ++ rest) = some (.num m e, rest) := by
  rcases lt_trichotomy e 0 with he | he | he
  · rw [numChars, if_neg (by omega), if_neg (by omega)]
    have hk : 1 ≤ (-e).toNat := by omega
    have hx : m.natAbs % 10 ^ (-e).toNat < 10 ^ (-e).toNat :=
      Nat.mod_lt _ (Nat.pos_pow_of_pos _ (by omega))
    have hmag : ((m.natAbs / 10 ^ (-e).toNat * 10 ^ (-e).toNat +
        m.natAbs % 10 ^ (-e).toNat : Nat) : Int) = (m.natAbs : Int) := by
      rw [Nat.div_add_mod']
    have hexp : (0 : Int) - ((-e).toNat : Int) = e := by omega
    by_cases hm : m < 0
    · rw [if_pos hm]
      simp only [List.cons_append, List.append_assoc]
      simp only [parseNum]
      rw [if_pos trivial, parseNumCore_dec _ _ _ hk hx true rest hrest, hmag, hexp]
      simp [intCast_natAbs_neg hm, abs_of_neg hm]
    · rw [if_neg hm]
      obtain ⟨c, cs2, heq, hdig⟩ := digitsOf_cons (m.natAbs / 10 ^ (-e).toNat)
      simp only [List.append_assoc, List.cons_append]
      rw [heq, List.cons_append]
      simp only [parseNum]
      rw [if_neg (isDigit_ne hdig (by decide)), ← List.cons_append, ← heq,
        parseNumCore_dec _ _ _ hk hx false rest hrest, hmag, hexp]
      simp [intCast_natAbs_nonneg hm]
  · subst he
    rw [numChars, if_pos rfl, parseNum_intChars]
    by_cases hm : m < 0
    · rw [if_pos hm, parseNumCore_int _ _ _ hrest]
      simp [intCast_natAbs_neg hm, abs_of_neg hm]
    · rw [if_neg hm, parseNumCore_int _ _ _ hrest]
      simp [intCast_natAbs_nonneg hm]
  · rw [numChars, if_neg (by omega), if_pos he]
    simp only [List.append_assoc, List.cons_append]
    rw [parseNum_intChars]
    have hex : ((e.toNat : Nat) : Int) = e := by omega
    by_cases hm : m < 0
    · rw [if_pos hm, parseNumCore_exp _ _ _ _ hrest]
      simp [intCast_natAbs_neg hm, hex, abs_of_neg hm]
    · rw [if_neg hm, parseNumCore_exp _ _ _ _ hrest]
      simp [intCast_natAbs_nonneg hm, hex]


/-! ## String round-trip -/

theorem hexVal_hexChar {d : Nat} (h : d < 16) : hexVal (hexChar d) = some d := by
  interval_cases d <;> rfl

theorem decodeHex4_hexChar {a b c d : Nat} (ha : a < 16) (hb : b < 16)
    (hc : c < 16) (hd : d < 16) :
    decodeHex4 (hexChar a) (hexChar b) (hexChar c) (hexChar d) =
      some (a * 4096 + b * 256 + c * 16 + d) := by
  simp only [decodeHex4, hexVal_hexChar ha, hexVal_hexChar hb,
    hexVal_hexChar hc, hexVal_hexChar hd]

theorem unescapeHead_uEsc (n : Nat) (hn : n < 0x10000) (tail : List Char) :
    unescapeHead (uEsc n ++ tail) = unescapeUVal n tail := by
  show unescapeHead ('\\' :: 'u' :: hexChar (n / 4096 % 16) ::
    hexChar (n / 256 % 16) :: hexChar (n / 16 % 16) :: hexChar (n % 16) :: tail) = _
  rw [show ∀ cs, unescapeHead ('\\' :: cs) = unescapeEsc cs from fun _ => rfl]
  rw [show ∀ cs, unescapeEsc ('u' :: cs) = unescapeU cs from fun _ => rfl]
  simp only [unescapeU]
  rw [decodeHex4_hexChar (by omega) (by omega) (by omega) (by omega)]
  rw [Option.some_bind]
  congr 1
  omega

/-- Decoding inverts escaping, one character at a time; the escape never
starts with a quote. -/
theorem unescapeHead_escChar (c : Char) (tail : List Char) :
    (∃ d ds, escChar c = d :: ds ∧ d ≠ '"') ∧
    unescapeHead (escChar c ++ tail) = some (c, tail) := by
  by_cases h1 : c = '"'
  · subst h1; exact ⟨⟨_, _, rfl, by decide⟩, rfl⟩
  · by_cases h2 : c = '\\'
    · subst h2; exact ⟨⟨_, _, rfl, by decide⟩, rfl⟩
    · by_cases h3 : c = '\n'
      · subst h3; exact ⟨⟨_, _, rfl, by decide⟩, rfl⟩
      · by_cases h4 : c = '\r'
        · subst h4; exact ⟨⟨_, _, rfl, by decide⟩, rfl⟩
        · by_cases h5 : c = '\t'
          · subst h5; exact ⟨⟨_, _, rfl, by decide⟩, rfl⟩
          · by_cases h6 : c = '\x08'
            · subst h6; exact ⟨⟨_, _, rfl, by decide⟩, rfl⟩
            · by_cases h7 : c = '\x0c'
              · subst h7; exact ⟨⟨_, _, rfl, by decide⟩, rfl⟩
              · have heq : escChar c =
                    if c.toNat < 0x20 || 0x7f ≤ c.toNat then
                      if c.toNat < 0x10000 then uEsc c.toNat
                      else uEsc (0xd800 + (c.toNat - 0x10000) / 0x400) ++
                        uEsc (0xdc00 + (c.toNat - 0x10000) % 0x400)
                    else [c] := by
                  rw [escChar, if_neg h1, if_neg h2, if_neg h3, if_neg h4,
                    if_neg h5, if_neg h6, if_neg h7]
                by_cases hc : c.toNat < 0x20 || 0x7f ≤ c.toNat
                · rw [heq, if_pos hc] at *
                  by_cases hten : c.toNat < 0x10000
                  · rw [if_pos hten]
                    have hcv : c.toNat = c.val.toNat := rfl
                    have hv : c.toNat < 0xd800 ∨ 0xe000 ≤ c.toNat := by
                      rcases c.valid with h | ⟨ha, hb⟩
                      · exact Or.inl (by omega)
                      · exact Or.inr (by omega)
                    constructor
                    · exact ⟨_, _, rfl, by decide⟩
                    · rw [unescapeHead_uEsc _ hten, unescapeUVal, if_pos hv,
                        Char.ofNat_toNat]
                  · rw [if_neg hten]
                    have hcv : c.toNat = c.val.toNat := rfl
                    have hvc : c.toNat < 0x110000 := by
                      rcases c.valid with h | ⟨ha, hb⟩ <;> omega
                    have hhi1 : 0xd800 + (c.toNat - 0x10000) / 0x400 < 0x10000 := by
                      omega
                    constructor
                    · exact ⟨_, _, rfl, by decide⟩
                    · rw [List.append_assoc, unescapeHead_uEsc _ hhi1, unescapeUVal,
                        if_neg (by omega), if_pos (by omega)]
                      show unescapeLow _ ('\\' :: 'u' ::
                        hexChar ((0xdc00 + (c.toNat - 0x10000) % 0x400) / 4096 % 16) ::
                        hexChar ((0xdc00 + (c.toNat - 0x10000) % 0x400) / 256 % 16) ::
                        hexChar ((0xdc00 + (c.toNat - 0x10000) % 0x400) / 16 % 16) ::
                        hexChar ((0xdc00 + (c.toNat - 0x10000) % 0x400) % 16) :: tail) = _
                      simp only [unescapeLow]
                      rw [if_pos trivial, if_pos trivial,
                        decodeHex4_hexChar (by omega) (by omega) (by omega) (by omega),
                        Option.some_bind, if_pos (by constructor <;> omega)]
                      have : 0x10000 + (0xd800 + (c.toNat - 0x10000) / 0x400 - 0xd800) * 0x400 +
                          ((0xdc00 + (c.toNat - 0x10000) % 0x400) / 4096 % 16 * 4096 +
                            (0xdc00 + (c.toNat - 0x10000) % 0x400) / 256 % 16 * 256 +
                            (0xdc00 + (c.toNat - 0x10000) % 0x400) / 16 % 16 * 16 +
                            (0xdc00 + (c.toNat - 0x10000) % 0x400) % 16 - 0xdc00) =
                          c.toNat := by
                        omega
                      rw [this, Char.ofNat_toNat]
                · rw [heq, if_neg hc] at *
                  have hlt : ¬(c.toNat < 0x20) := by
                    intro hx
                    exact hc (by simp [hx])
                  constructor
                  · exact ⟨_, _, rfl, h1⟩
                  · show unescapeHead (c :: tail) = _
                    simp only [unescapeHead]
                    rw [if_neg h1, if_neg h2, if_neg hlt]

theorem escChars_length (cs : List Char) : cs.length ≤ (escChars cs).length := by
  induction cs with
  | nil => simp [escChars]
  | cons c cs ih =>
    obtain ⟨⟨d, ds, heq, _⟩, _⟩ := unescapeHead_escChar c []
    show (c :: cs).length ≤ (escChar c ++ escChars cs).length
    rw [heq]
    simp only [List.length_cons, List.cons_append, List.length_append]
    omega

theorem parseStringBody_escChars (cs : List Char) : ∀ fuel rest, cs.length < fuel →
    parseStringBody fuel (escChars cs ++ '"' :: rest) = some (cs, rest) := by
  induction cs with
  | nil =>
    intro fuel rest hf
    obtain ⟨f, rfl⟩ : ∃ f, fuel = f + 1 := ⟨fuel - 1, by omega⟩
    rfl
  | cons c cs ih =>
    intro fuel rest hf
    obtain ⟨f, rfl⟩ : ∃ f, fuel = f + 1 := ⟨fuel - 1, by omega⟩
    obtain ⟨⟨d, ds, heq, hdq⟩, hun⟩ := unescapeHead_escChar c (escChars cs ++ '"' :: rest)
    show parseStringBody (f + 1) ((escChar c ++ escChars cs) ++ '"' :: rest) = _
    rw [List.append_assoc, heq, List.cons_append]
    simp only [parseStringBody]
    rw [if_neg hdq, ← List.cons_append, ← heq, hun]
    show mapCons c (parseStringBody f (escChars cs ++ '"' :: rest)) = _
    rw [ih f rest (by simpa using hf)]
    rfl

/-- Parsing inverts string-body escaping. -/
theorem parseStr_escChars (cs rest : List Char) :
    parseStr (escChars cs ++ '"' :: rest) = some (cs, rest) := by
  apply parseStringBody_escChars
  have h1 := escChars_length cs
  simp only [List.length_append, List.length_cons]
  omega

/-! ## Value round-trip -/

theorem skipWs_cons {c : Char} (h : isJsonWs c = false) (cs : List Char) :
    skipWs (c :: cs) = c :: cs := by
  simp [skipWs, List.dropWhile_cons, h]

theorem parseVal_ws (fuel : Nat) (cs : List Char) :
    parseVal fuel (' ' :: cs) = parseVal fuel cs := by
  cases fuel with
  | zero => rfl
  | succ f =>
    have h : skipWs (' ' :: cs) = skipWs cs := by
      simp [skipWs, List.dropWhile_cons, isJsonWs]
    simp only [parseVal, h]

theorem isDigit_not_special {c : Char} (h : c.isDigit = true) :
    isJsonWs c = false ∧ c ≠ ']' ∧ c ≠ '\x7d' ∧ c ≠ ',' := by
  refine ⟨?_, isDigit_ne h (by decide), isDigit_ne h (by decide),
    isDigit_ne h (by decide)⟩
  have h1 : c ≠ ' ' := isDigit_ne h (by decide)
  have h2 : c ≠ '\t' := isDigit_ne h (by decide)
  have h3 : c ≠ '\n' := isDigit_ne h (by decide)
  have h4 : c ≠ '\r' := isDigit_ne h (by decide)
  simp [isJsonWs, h1, h2, h3, h4]

theorem numChars_head (m e : Int) :
    ∃ c cs, numChars m e = c :: cs ∧ (c.isDigit = true ∨ c = '-') := by
  rw [numChars]
  by_cases he : e = 0
  · rw [if_pos he, intChars]
    by_cases hm : m < 0
    · exact ⟨'-', _, by rw [if_pos hm], Or.inr rfl⟩
    · obtain ⟨c, cs, heq, hdig⟩ := digitsOf_cons m.natAbs
      exact ⟨c, cs, by rw [if_neg hm, heq], Or.inl hdig⟩
  · rw [if_neg he]
    by_cases he2 : 0 < e
    · rw [if_pos he2, intChars]
      by_cases hm : m < 0
      · exact ⟨'-', _, by rw [if_pos hm, List.cons_append], Or.inr rfl⟩
      · obtain ⟨c, cs, heq, hdig⟩ := digitsOf_cons m.natAbs
        exact ⟨c, _, by rw [if_neg hm, heq, List.cons_append], Or.inl hdig⟩
    · rw [if_neg he2]
      by_cases hm : m < 0
      · exact ⟨'-', _, by rw [if_pos hm], Or.inr rfl⟩
      · obtain ⟨c, cs, heq, hdig⟩ := digitsOf_cons (m.natAbs / 10 ^ (-e).toNat)
        exact ⟨c, _, by rw [if_neg hm, heq, List.cons_append], Or.inl hdig⟩

theorem dumpChars_head (v : JValue) :
    ∃ c cs, dumpChars v = c :: cs ∧ isJsonWs c = false ∧ c ≠ ']' ∧
      c ≠ '\x7d' ∧ c ≠ ',' := by
  cases v with
  | null => exact ⟨'n', _, rfl, by decide, by decide, by decide, by decide⟩
  | bool b =>
    cases b
    · exact ⟨'f', _, rfl, by decide, by decide, by decide, by decide⟩
    · exact ⟨'t', _, rfl, by decide, by decide, by decide, by decide⟩
  | num m e =>
    obtain ⟨c, cs, heq, hd⟩ := numChars_head m e
    refine ⟨c, cs, heq, ?_⟩
    rcases hd with hd | rfl
    · exact isDigit_not_special hd
    · exact ⟨by decide, by decide, by decide, by decide⟩
  | str s => exact ⟨'"', _, rfl, by decide, by decide, by decide, by decide⟩
  | arr xs =>
    cases xs with
    | nil => exact ⟨'[', _, rfl, by decide, by decide, by decide, by decide⟩
    | cons x xs => exact ⟨'[', _, rfl, by decide, by decide, by decide, by decide⟩
  | obj ps =>
    cases ps with
    | nil => exact ⟨'\x7b', _, rfl, by decide, by decide, by decide, by decide⟩
    | cons p ps =>
      cases p
      exact ⟨'\x7b', _, rfl, by decide, by decide, by decide, by decide⟩

theorem sepTail_nil : sepTail [] := fun c hc => by simp at hc

theorem sepTail_cons {c : Char} (h : c = ',' ∨ c = ']' ∨ c = '\x7d')
    (cs : List Char) : sepTail (c :: cs) := by
  intro x hx
  simp at hx
  subst hx
  exact h

theorem sepTail_dumpItems (xs : List JValue) (rest : List Char) :
    sepTail (dumpItems xs ++ ']' :: rest) := by
  cases xs with
  | nil => exact sepTail_cons (Or.inr (Or.inl rfl)) rest
  | cons x xs =>
    show sepTail ((',' :: ' ' :: (dumpChars x ++ dumpItems xs)) ++ ']' :: rest)
    rw [List.cons_append]
    exact sepTail_cons (Or.inl rfl) _

theorem sepTail_dumpMembers (ps : List (String × JValue)) (rest : List Char) :
    sepTail (dumpMembers ps ++ '\x7d' :: rest) := by
  cases ps with
  | nil => exact sepTail_cons (Or.inr (Or.inr rfl)) rest
  | cons p ps =>
    cases p with
    | mk k v =>
      show sepTail ((',' :: ' ' :: '"' :: (escChars k.data ++
        '"' :: ':' :: ' ' :: (dumpChars v ++ dumpMembers ps))) ++ '\x7d' :: rest)
      rw [List.cons_append]
      exact sepTail_cons (Or.inl rfl) _

theorem numTail_of_sepTail {cs : List Char} (h : sepTail cs) : numTail cs := by
  intro c hc
  rcases h c hc with rfl | rfl | rfl <;>
    exact ⟨by decide, by decide, by decide, by decide⟩

theorem jsize_pos (v : JValue) : 1 ≤ jsize v := by
  cases v <;> simp [jsize]

theorem pfuel_pos (v : JValue) : 1 ≤ pfuel v := by
  cases v <;> simp [pfuel]

theorem parseItemsRest_dump (ys : List JValue)
    (hA : ∀ y ∈ ys, ∀ fuel rest, pfuel y ≤ fuel → sepTail rest →
      parseVal fuel (dumpChars y ++ rest) = some (y, rest)) :
    ∀ fuel rest, pfuelList ys ≤ fuel → sepTail rest →
      parseItemsRest fuel (skipWs (dumpItems ys ++ ']' :: rest)) = some (ys, rest) := by
  induction ys with
  | nil =>
    intro fuel rest hf hsep
    obtain ⟨f, rfl⟩ : ∃ f, fuel = f + 1 :=
      ⟨fuel - 1, by simp [pfuelList] at hf; omega⟩
    rfl
  | cons y ys ih =>
    intro fuel rest hf hsep
    simp only [pfuelList] at hf
    obtain ⟨f, rfl⟩ : ∃ f, fuel = f + 1 := ⟨fuel - 1, by omega⟩
    show parseItemsRest (f + 1)
      (skipWs ((',' :: ' ' :: (dumpChars y ++ dumpItems ys)) ++ ']' :: rest)) = _
    simp only [List.cons_append, List.append_assoc]
    rw [skipWs_cons (by decide)]
    simp only [parseItemsRest]
    rw [if_pos trivial, parseVal_ws,
      hA y (by simp) f _ (by omega) (sepTail_dumpItems ys rest)]
    show (parseItemsRest f (skipWs (dumpItems ys ++ ']' :: rest))).map _ = _
    rw [ih (fun z hz => hA z (by simp [hz])) f rest (by omega) hsep]
    rfl

theorem parseMember_dump (k : String) (v : JValue)
    (hAv : ∀ fuel rest, pfuel v ≤ fuel → sepTail rest →
      parseVal fuel (dumpChars v ++ rest) = some (v, rest)) :
    ∀ fuel rest, 1 + pfuel v ≤ fuel → sepTail rest →
      parseMember fuel (escChars k.data ++ '"' :: ':' :: ' ' :: (dumpChars v ++ rest)) =
        some ((k, v), rest) := by
  intro fuel rest hf hsep
  obtain ⟨f, rfl⟩ : ∃ f, fuel = f + 1 := ⟨fuel - 1, by omega⟩
  simp only [parseMember]
  rw [show parseStr (escChars k.data ++ '"' :: ':' :: ' ' :: (dumpChars v ++ rest)) =
    some (k.data, ':' :: ' ' :: (dumpChars v ++ rest)) from parseStr_escChars _ _]
  show (match parseVal f (' ' :: (dumpChars v ++ rest)) with
    | some (v, r3) => some ((String.mk k.data, v), r3)
    | none => none) = _
  rw [parseVal_ws, hAv f rest (by omega) hsep]

theorem parseMembersRest_dump (ps : List (String × JValue))
    (hA : ∀ p ∈ ps, ∀ fuel rest, pfuel p.2 ≤ fuel → sepTail rest →
      parseVal fuel (dumpChars p.2 ++ rest) = some (p.2, rest)) :
    ∀ fuel rest, pfuelKVs ps ≤ fuel → sepTail rest →
      parseMembersRest fuel (skipWs (dumpMembers ps ++ '\x7d' :: rest)) =
        some (ps, rest) := by
  induction ps with
  | nil =>
    intro fuel rest hf hsep
    obtain ⟨f, rfl⟩ : ∃ f, fuel = f + 1 :=
      ⟨fuel - 1, by simp [pfuelKVs] at hf; omega⟩
    rfl
  | cons p ps ih =>
    obtain ⟨k, v⟩ := p
    intro fuel rest hf hsep
    simp only [pfuelKVs] at hf
    obtain ⟨f, rfl⟩ : ∃ f, fuel = f + 1 := ⟨fuel - 1, by omega⟩
    show parseMembersRest (f + 1)
      (skipWs ((',' :: ' ' :: '"' :: (escChars k.data ++
        '"' :: ':' :: ' ' :: (dumpChars v ++ dumpMembers ps))) ++ '\x7d' :: rest)) = _
    simp only [List.cons_append, List.append_assoc]
    rw [skipWs_cons (by decide)]
    simp only [parseMembersRest]
    rw [if_pos trivial]
    rw [show skipWs (' ' :: '"' :: (escChars k.data ++
        ('"' :: ':' :: ' ' :: (dumpChars v ++ (dumpMembers ps ++ '\x7d' :: rest))))) =
      '"' :: (escChars k.data ++
        ('"' :: ':' :: ' ' :: (dumpChars v ++ (dumpMembers ps ++ '\x7d' :: rest)))) from by
      simp [skipWs, List.dropWhile_cons, isJsonWs]]
    show (match parseMember f (escChars k.data ++
        ('"' :: ':' :: ' ' :: (dumpChars v ++ (dumpMembers ps ++ '\x7d' :: rest)))) with
      | some (p, r) => (parseMembersRest f (skipWs r)).map
          fun (q : List (String × JValue) × List Char) => (p :: q.1, q.2)
      | none => none) = _
    rw [parseMember_dump k v (fun fu re h1 h2 => hA (k, v) (by simp) fu re h1 h2)
      f _ (by omega) (sepTail_dumpMembers ps rest)]
    show (parseMembersRest f (skipWs (dumpMembers ps ++ '\x7d' :: rest))).map _ = _
    rw [ih (fun z hz => hA z (by simp [hz])) f rest (by omega) hsep]
    rfl

theorem jsize_le_of_mem {y : JValue} {ys : List JValue} (h : y ∈ ys) :
    jsize y ≤ jsizeList ys := by
  induction ys with
  | nil => cases h
  | cons z zs ih =>
    rcases List.mem_cons.mp h with rfl | h2
    · simp [jsizeList]
      omega
    · have := ih h2
      simp [jsizeList]
      omega

theorem jsize_le_of_memKV {p : String × JValue} {ps : List (String × JValue)}
    (h : p ∈ ps) : jsize p.2 ≤ jsizeKVs ps := by
  induction ps with
  | nil => cases h
  | cons q qs ih =>
    rcases List.mem_cons.mp h with rfl | h2
    · cases p with
      | mk k v => simp [jsizeKVs]; omega
    · have := ih h2
      cases q with
      | mk k v => simp [jsizeKVs]; omega

/-- Parsing inverts serialization, before a separator or the end of input. -/
theorem parseVal_dump_aux : ∀ (N : Nat) (v : JValue), jsize v ≤ N →
    ∀ fuel rest, pfuel v ≤ fuel → sepTail rest →
    parseVal fuel (dumpChars v ++ rest) = some (v, rest) := by
  intro N
  induction N with
  | zero =>
    intro v hsz
    exact absurd hsz (by have := jsize_pos v; omega)
  | succ N ih =>
    intro v hsz fuel rest hfuel hsep
    obtain ⟨f, rfl⟩ : ∃ f, fuel = f + 1 :=
      ⟨fuel - 1, by have := pfuel_pos v; omega⟩
    cases v with
    | null => rfl
    | bool b => cases b <;> rfl
    | str s =>
      show parseVal (f + 1) (('"' :: (escChars s.data ++ ['"'])) ++ rest) = _
      rw [List.cons_append, List.append_assoc, List.singleton_append]
      show (parseStr (escChars s.data ++ '"' :: rest)).map
        (fun p => (JValue.str (String.mk p.1), p.2)) = _
      rw [parseStr_escChars]
      rfl
    | num m e =>
      obtain ⟨c, cs2, heq, hd⟩ := numChars_head m e
      show parseVal (f + 1) (numChars m e ++ rest) = _
      rw [heq, List.cons_append]
      simp only [parseVal]
      have hws : isJsonWs c = false := by
        rcases hd with hd | rfl
        · exact (isDigit_not_special hd).1
        · decide
      rw [skipWs_cons hws]
      have hn1 : c ≠ 'n' := by
        rcases hd with hd | rfl
        · exact isDigit_ne hd (by decide)
        · decide
      have hn2 : c ≠ 't' := by
        rcases hd with hd | rfl
        · exact isDigit_ne hd (by decide)
        · decide
      have hn3 : c ≠ 'f' := by
        rcases hd with hd | rfl
        · exact isDigit_ne hd (by decide)
        · decide
      have hn4 : c ≠ '"' := by
        rcases hd with hd | rfl
        · exact isDigit_ne hd (by decide)
        · decide
      have hn5 : c ≠ '[' := by
        rcases hd with hd | rfl
        · exact isDigit_ne hd (by decide)
        · decide
      have hn6 : c ≠ '\x7b' := by
        rcases hd with hd | rfl
        · exact isDigit_ne hd (by decide)
        · decide
      simp only [if_neg hn1, if_neg hn2, if_neg hn3, if_neg hn4, if_neg hn5,
        if_neg hn6]
      rw [← List.cons_append, ← heq,
        parseNum_numChars m e rest (numTail_of_sepTail hsep)]
    | arr xs =>
      cases xs with
      | nil =>
        simp only [pfuel, pfuelList] at hfuel
        obtain ⟨f1, rfl⟩ : ∃ f1, f = f1 + 1 := ⟨f - 1, by omega⟩
        rfl
      | cons x xs =>
        simp only [pfuel, pfuelList] at hfuel
        obtain ⟨f1, rfl⟩ : ∃ f1, f = f1 + 1 := ⟨f - 1, by omega⟩
        simp only [jsize, jsizeList] at hsz
        have hszx : jsize x ≤ N := by omega
        show parseVal (f1 + 1 + 1)
          (('[' :: (dumpChars x ++ dumpItems xs) ++ [']']) ++ rest) = _
        simp only [List.cons_append, List.append_assoc, List.singleton_append]
        show (parseItems (f1 + 1)
          (skipWs (dumpChars x ++ (dumpItems xs ++ ']' :: rest)))).map
          (fun p => (JValue.arr p.1, p.2)) = _
        obtain ⟨c, cs2, heqd, hws, hrb, hbr, hcm⟩ := dumpChars_head x
        rw [heqd, List.cons_append, skipWs_cons hws]
        simp only [parseItems]
        rw [if_neg hrb, ← List.cons_append, ← heqd,
          ih x hszx f1 _ (by omega) (sepTail_dumpItems xs rest)]
        show (((parseItemsRest f1 (skipWs (dumpItems xs ++ ']' :: rest))).map
          (fun (p : List JValue × List Char) => (x :: p.1, p.2))).map
          (fun p => (JValue.arr p.1, p.2))) = _
        rw [parseItemsRest_dump xs
          (fun y hy fz rz h1 h2 => ih y (by have := jsize_le_of_mem hy; omega) fz rz h1 h2)
          f1 rest (by omega) hsep]
        rfl
    | obj ps =>
      cases ps with
      | nil =>
        simp only [pfuel, pfuelKVs] at hfuel
        obtain ⟨f1, rfl⟩ : ∃ f1, f = f1 + 1 := ⟨f - 1, by omega⟩
        rfl
      | cons p ps =>
        obtain ⟨k, v⟩ := p
        simp only [pfuel, pfuelKVs] at hfuel
        obtain ⟨f1, rfl⟩ : ∃ f1, f = f1 + 1 := ⟨f - 1, by omega⟩
        simp only [jsize, jsizeKVs] at hsz
        have hszv : jsize v ≤ N := by omega
        show parseVal (f1 + 1 + 1)
          (('\x7b' :: '"' :: (escChars k.data ++
            '"' :: ':' :: ' ' :: (dumpChars v ++ dumpMembers ps)) ++ ['\x7d']) ++ rest) = _
        simp only [List.cons_append, List.append_assoc, List.singleton_append]
        show (parseMembers (f1 + 1)
          (skipWs ('"' :: (escChars k.data ++
            ('"' :: ':' :: ' ' :: (dumpChars v ++ (dumpMembers ps ++ '\x7d' :: rest))))))).map
          (fun p => (JValue.obj p.1, p.2)) = _
        rw [skipWs_cons (by decide)]
        simp only [parseMembers]
        rw [if_pos trivial]
        rw [parseMember_dump k v
          (fun fz rz h1 h2 => ih v hszv fz rz h1 h2)
          f1 _ (by omega) (sepTail_dumpMembers ps rest)]
        show (((parseMembersRest f1 (skipWs (dumpMembers ps ++ '\x7d' :: rest))).map
          (fun (q : List (String × JValue) × List Char) => ((k, v) :: q.1, q.2))).map
          (fun p => (JValue.obj p.1, p.2))) = _
        rw [parseMembersRest_dump ps
          (fun q hq fz rz h1 h2 =>
            ih q.2 (by have := jsize_le_of_memKV hq; omega) fz rz h1 h2)
          f1 rest (by omega) hsep]
        rfl

theorem dumpChars_ne_nil (v : JValue) : 1 ≤ (dumpChars v).length := by
  obtain ⟨c, cs, heq, _⟩ := dumpChars_head v
  rw [heq]
  simp

theorem pfuelList_le (xs : List JValue)
    (hA : ∀ x ∈ xs, pfuel x ≤ (dumpChars x).length + 1) :
    pfuelList xs ≤ (dumpItems xs).length + 2 := by
  induction xs with
  | nil => simp [pfuelList, dumpItems]
  | cons x xs ih =>
    have h1 := hA x (by simp)
    have h2 := ih (fun z hz => hA z (by simp [hz]))
    show 1 + max (pfuel x) (pfuelList xs) ≤
      (',' :: ' ' :: (dumpChars x ++ dumpItems xs)).length + 2
    simp only [List.length_cons, List.length_append]
    omega

theorem pfuelKVs_le (ps : List (String × JValue))
    (hA : ∀ p ∈ ps, pfuel p.2 ≤ (dumpChars p.2).length + 1) :
    pfuelKVs ps ≤ (dumpMembers ps).length + 2 := by
  induction ps with
  | nil => simp [pfuelKVs, dumpMembers]
  | cons p ps ih =>
    obtain ⟨k, v⟩ := p
    have h1 := hA (k, v) (by simp)
    have h2 := ih (fun z hz => hA z (by simp [hz]))
    show 1 + max (1 + pfuel v) (pfuelKVs ps) ≤
      (',' :: ' ' :: '"' :: (escChars k.data ++
        '"' :: ':' :: ' ' :: (dumpChars v ++ dumpMembers ps))).length + 2
    simp only [List.length_cons, List.length_append] at *
    omega

theorem pfuel_le_dump_aux : ∀ (N : Nat) (v : JValue), jsize v ≤ N →
    pfuel v ≤ (dumpChars v).length + 1 := by
  intro N
  induction N with
  | zero =>
    intro v hsz
    exact absurd hsz (by have := jsize_pos v; omega)
  | succ N ih =>
    intro v hsz
    cases v with
    | null => simp [pfuel]
    | bool b => simp [pfuel]
    | num m e => simp [pfuel]
    | str s => simp [pfuel]
    | arr xs =>
      cases xs with
      | nil =>
        show pfuel (.arr []) ≤ (['[', ']'] : List Char).length + 1
        simp [pfuel, pfuelList]
      | cons x xs =>
        simp only [jsize, jsizeList] at hsz
        have h1 := ih x (by omega)
        have h2 := pfuelList_le xs
          (fun z hz => ih z (by have := jsize_le_of_mem hz; omega))
        have h3 := dumpChars_ne_nil x
        show 1 + pfuelList (x :: xs) ≤
          ('[' :: (dumpChars x ++ dumpItems xs) ++ [']']).length + 1
        simp only [pfuelList, List.length_append, List.length_cons] at *
        omega
    | obj ps =>
      cases ps with
      | nil =>
        show pfuel (.obj []) ≤ (['\x7b', '\x7d'] : List Char).length + 1
        simp [pfuel, pfuelKVs]
      | cons p ps =>
        obtain ⟨k, v⟩ := p
        simp only [jsize, jsizeKVs] at hsz
        have h1 := ih v (by omega)
        have h2 := pfuelKVs_le ps
          (fun z hz => ih z.2 (by have := jsize_le_of_memKV hz; omega))
        show 1 + pfuelKVs ((k, v) :: ps) ≤
          ('\x7b' :: '"' :: (escChars k.data ++
            '"' :: ':' :: ' ' :: (dumpChars v ++ dumpMembers ps)) ++ ['\x7d']).length + 1
        simp only [pfuelKVs, List.length_append, List.length_cons] at *
        omega

/-- Deserializing a serialized JSON value recovers it exactly. -/
theorem loads_dumps (v : JValue) : loads (dumps v) = some v := by
  have h := parseVal_dump_aux (jsize v) v le_rfl ((dumpChars v).length + 2) []
    (by have := pfuel_le_dump_aux (jsize v) v le_rfl; omega) sepTail_nil
  rw [List.append_nil] at h
  simp only [loads]
  rw [show (dumps v).data = dumpChars v from rfl, h]
  rfl

/-! ## Timestamp format -/

theorem list_len_two {l : List Char} (h : l.length = 2) : ∃ a b, l = [a, b] := by
  cases l with
  | nil => simp at h
  | cons a l1 =>
    cases l1 with
    | nil => simp at h
    | cons b l2 =>
      cases l2 with
      | nil => exact ⟨a, b, rfl⟩
      | cons c l3 => simp at h

theorem list_len_four {l : List Char} (h : l.length = 4) :
    ∃ a b c d, l = [a, b, c, d] := by
  cases l with
  | nil => simp at h
  | cons a l1 =>
    obtain ⟨b, c, d, heq⟩ : ∃ b c d, l1 = [b, c, d] := by
      cases l1 with
      | nil => simp at h
      | cons b l2 =>
        obtain ⟨c, d, heq⟩ := list_len_two (l := l2) (by simp at h; omega)
        exact ⟨b, c, d, by rw [heq]⟩
    exact ⟨a, b, c, d, by rw [heq]⟩

theorem pad_digits {k n : Nat} (hk : 1 ≤ k) (h : n < 10 ^ k) :
    (padZeros k (digitsOf n)).length = k ∧
      ∀ c ∈ padZeros k (digitsOf n), c.isDigit = true :=
  ⟨padZeros_length (digitsOf_length_le hk h),
   padZeros_all_digit _ _ (digitsOf_all_digit n)⟩

/-- A wall-clock reading always formats as `YYYY-MM-DD HH:MM:SS`. -/
theorem tsMatches_formatTS (d : DateTime) (h : d.wf) :
    tsMatches (formatTS d) = true := by
  obtain ⟨hy, hm1, hm2, hd1, hd2, hh, hmin, hs⟩ := h
  obtain ⟨ly, dy⟩ := pad_digits (k := 4) (n := d.year) (by omega) (by omega)
  obtain ⟨lmo, dmo⟩ := pad_digits (k := 2) (n := d.month) (by omega) (by omega)
  obtain ⟨lda, dda⟩ := pad_digits (k := 2) (n := d.day) (by omega) (by omega)
  obtain ⟨lho, dho⟩ := pad_digits (k := 2) (n := d.hour) (by omega) (by omega)
  obtain ⟨lmi, dmi⟩ := pad_digits (k := 2) (n := d.minute) (by omega) (by omega)
  obtain ⟨lse, dse⟩ := pad_digits (k := 2) (n := d.second) (by omega) (by omega)
  obtain ⟨y1, y2, y3, y4, hey⟩ := list_len_four ly
  obtain ⟨a1, a2, hea⟩ := list_len_two lmo
  obtain ⟨b1, b2, heb⟩ := list_len_two lda
  obtain ⟨c1, c2, hec⟩ := list_len_two lho
  obtain ⟨e1, e2, hee⟩ := list_len_two lmi
  obtain ⟨g1, g2, heg⟩ := list_len_two lse
  rw [hey] at dy
  rw [hea] at dmo
  rw [heb] at dda
  rw [hec] at dho
  rw [hee] at dmi
  rw [heg] at dse
  show tsMatches (String.mk (padZeros 4 (digitsOf d.year) ++
    '-' :: (padZeros 2 (digitsOf d.month) ++ '-' :: (padZeros 2 (digitsOf d.day) ++
    ' ' :: (padZeros 2 (digitsOf d.hour) ++ ':' :: (padZeros 2 (digitsOf d.minute) ++
    ':' :: padZeros 2 (digitsOf d.second))))))) = true
  rw [hey, hea, heb, hec, hee, heg]
  simp only [List.cons_append, List.append_assoc, List.nil_append]
  simp only [tsMatches]
  simp only [Bool.and_eq_true, decide_eq_true_eq]
  refine ⟨⟨⟨⟨⟨⟨⟨⟨⟨⟨⟨⟨⟨⟨⟨⟨⟨⟨dy y1 (by simp), dy y2 (by simp)⟩, dy y3 (by simp)⟩,
    dy y4 (by simp)⟩, trivial⟩, dmo a1 (by simp)⟩, dmo a2 (by simp)⟩, trivial⟩,
    dda b1 (by simp)⟩, dda b2 (by simp)⟩, trivial⟩, dho c1 (by simp)⟩,
    dho c2 (by simp)⟩, trivial⟩, dmi e1 (by simp)⟩, dmi e2 (by simp)⟩, trivial⟩,
    dse g1 (by simp)⟩, dse g2 (by simp)⟩

/-! ## Handler path lemmas -/

theorem handler_error_eq (cfg : Config) (event : Event) (e : PyErr)
    (h : handlerTry cfg event = .error e) :
    handler cfg event = some (err500 cfg.now e) := by
  simp only [handler, h]

theorem handler_other_method (cfg : Config) (event : Event) (v : JValue)
    (hv : lookupKV event "httpMethod" = some v)
    (h1 : v ≠ .str "GET") (h2 : v ≠ .str "POST") (h3 : v ≠ .str "OPTIONS") :
    handler cfg event = none := by
  have hm : httpMethodOf event = v := by simp [httpMethodOf, hv]
  simp only [handler, handlerTry]
  rw [hm, if_neg h2, if_neg h1, if_neg h3]
  rfl

theorem handler_get (cfg : Config) (event : Event)
    (hm : httpMethodOf event = .str "GET") :
    handler cfg event = some ⟨200, getHeaders, dumps (getResponseData cfg.now)⟩ := by
  simp only [handler, handlerTry]
  rw [hm, if_neg (by decide), if_pos rfl]
  rfl

theorem handler_options (cfg : Config) (event : Event)
    (hm : httpMethodOf event = .str "OPTIONS") :
    handler cfg event = some ⟨200, optionsHeaders, ""⟩ := by
  simp only [handler, handlerTry]
  rw [hm, if_neg (by decide), if_neg (by decide), if_pos rfl]
  rfl

theorem handlerTry_post_eq (cfg : Config) (event : Event)
    (hm : httpMethodOf event = .str "POST") :
    handlerTry cfg event =
      (extractMsg (parseBody event)).bind fun mu =>
        match mu.1 with
        | .str m => .ok (some (chatResult
            (if pyStrip m ≠ "" then (get_ai_response cfg.apiKey cfg.net m mu.2).1
             else .str (debugResponse event)) cfg.now))
        | v => .error (stripErr v) := by
  simp only [handlerTry]
  rw [hm, if_pos rfl]
  rfl

theorem handler_post_str (cfg : Config) (event : Event) (m : String) (u : JValue)
    (hm : httpMethodOf event = .str "POST")
    (hE : extractMsg (parseBody event) = .ok (.str m, u)) :
    handler cfg event = some (chatResult
      (if pyStrip m ≠ "" then (get_ai_response cfg.apiKey cfg.net m u).1
       else .str (debugResponse event)) cfg.now) := by
  simp only [handler, handlerTry_post_eq cfg event hm, hE, Except.bind]

theorem handler_post_nonstr (cfg : Config) (event : Event) (v u : JValue)
    (hm : httpMethodOf event = .str "POST")
    (hE : extractMsg (parseBody event) = .ok (v, u))
    (hv : v.isStr = false) :
    handler cfg event = some (err500 cfg.now (stripErr v)) := by
  simp only [handler, handlerTry_post_eq cfg event hm, hE, Except.bind]
  cases v with
  | str s => simp [JValue.isStr] at hv
  | null => rfl
  | bool b => rfl
  | num m e => rfl
  | arr xs => rfl
  | obj kvs => rfl

theorem extractMsg_obj_found (kvs : List (String × JValue)) (v : JValue)
    (hv : lookupKV kvs "message" = some v) :
    extractMsg (.obj kvs) =
      .ok (v, (lookupKV kvs "user_id").getD (.str "anonymous")) := by
  simp only [extractMsg, pyContains, containsKey, hv, pyIndex, pyGet]
  rfl

theorem parseBody_of_body_str (event : Event) (bs : String) (b : JValue)
    (hb : lookupKV event "body" = some (.str bs)) (hl : loads bs = some b) :
    parseBody event = b := by
  have hbs : bs ≠ "" := by
    intro hc
    subst hc
    rw [show loads "" = none from rfl] at hl
    cases hl
  simp only [parseBody, extractBodyStr, hb]
  rw [if_neg hbs, hl]

/-! ## AI client lemmas -/

theorem keyTruthy_ne_false {k : String} (hk : k ≠ "") :
    ¬(keyTruthy (some k) = false) := by
  simp [keyTruthy, hk]

theorem aiCore_no_key (key : Option String) (h : keyTruthy key = false)
    (net : Net) (msg : String) :
    aiCore key net msg = (.ok (.str unavailableMsg), []) := by
  simp only [aiCore]
  rw [h, if_pos rfl]

theorem get_ai_response_no_key (key : Option String) (h : keyTruthy key = false)
    (net : Net) (msg : String) (uid : JValue) :
    get_ai_response key net msg uid = (.str unavailableMsg, []) := by
  simp only [get_ai_response, aiCore_no_key key h net msg]

theorem get_ai_response_error (key : Option String) (net : Net) (msg : String)
    (uid : JValue) (e : PyErr) (tr : List HttpRequest)
    (h : aiCore key net msg = (.error e, tr)) :
    get_ai_response key net msg uid = (.str exceptionFallback, tr) := by
  simp only [get_ai_response, h]

theorem get_ai_response_ok (key : Option String) (net : Net) (msg : String)
    (uid : JValue) (v : JValue) (tr : List HttpRequest)
    (h : aiCore key net msg = (.ok v, tr)) :
    get_ai_response key net msg uid = (v, tr) := by
  simp only [get_ai_response, h]

theorem get_ai_trace (key : Option String) (net : Net) (msg : String)
    (uid : JValue) :
    (get_ai_response key net msg uid).2 = (aiCore key net msg).2 := by
  rcases h : aiCore key net msg with ⟨x, tr⟩
  cases x <;> simp [get_ai_response, h]

theorem aiCore_with_key (k : String) (hk : k ≠ "") (net : Net) (msg : String) :
    aiCore (some k) net msg =
      (match net ⟨intlUrl, aiHeaders k, aiPayload msg⟩ with
       | .error e => (.error e, [⟨intlUrl, aiHeaders k, aiPayload msg⟩])
       | .ok resp =>
         if resp.status_code = 200 then
           aiOn200 resp [⟨intlUrl, aiHeaders k, aiPayload msg⟩]
         else aiRetry k msg net resp) := by
  simp only [aiCore]
  rw [if_neg (keyTruthy_ne_false hk)]
  rfl

theorem containsSub_intl : containsSub "dashscope-intl".data intlUrl.data = true := rfl

theorem aiOn200_trace (resp : NetResponse) (tr : List HttpRequest) :
    (aiOn200 resp tr).2 = tr := by
  simp only [aiOn200]
  rcases responseJson resp with e | rd
  · rfl
  · rcases h : outputTextCheck rd with e | t?
    · simp only [h]
    · simp only [h]
      cases t? <;> rfl

theorem aiRetry_trace (k msg : String) (net : Net) (resp1 : NetResponse) :
    (aiRetry k msg net resp1).2 =
      [⟨intlUrl, aiHeaders k, aiPayload msg⟩,
       ⟨regionalUrl, aiHeaders k, aiPayload msg⟩] := by
  simp only [aiRetry]
  rw [if_pos containsSub_intl]
  rcases h2 : net ⟨regionalUrl, aiHeaders k, aiPayload msg⟩ with e | resp2
  · simp only [h2]
  · simp only [h2]
    by_cases hs2 : resp2.status_code = 200
    · rw [if_pos hs2]
      rcases responseJson resp2 with e | rd
      · rfl
      · rcases h : outputTextCheck rd with e | t?
        · simp only [h]
        · simp only [h]
          cases t? <;> rfl
    · rw [if_neg hs2]

theorem aiRetry_result_401 (k msg : String) (net : Net) (resp1 resp2 : NetResponse)
    (h2 : net ⟨regionalUrl, aiHeaders k, aiPayload msg⟩ = .ok resp2)
    (hs2 : resp2.status_code = 401) :
    (aiRetry k msg net resp1).1 = .ok (.str apiKeyTrouble) := by
  simp only [aiRetry]
  rw [if_pos containsSub_intl]
  simp only [h2]
  rw [if_neg (by omega)]
  simp [statusFallback, hs2]

theorem aiRetry_result_text (k msg : String) (net : Net) (resp1 resp2 : NetResponse)
    (rd t : JValue)
    (h2 : net ⟨regionalUrl, aiHeaders k, aiPayload msg⟩ = .ok resp2)
    (hs2 : resp2.status_code = 200)
    (hrd : loads resp2.text = some rd)
    (ht : outputTextCheck rd = .ok (some t)) :
    (aiRetry k msg net resp1).1 = .ok t := by
  simp only [aiRetry]
  rw [if_pos containsSub_intl]
  simp only [h2]
  rw [if_pos hs2]
  simp only [responseJson, hrd, ht]

theorem aiCore_trace_len (key : Option String) (net : Net) (msg : String) :
    (aiCore key net msg).2.length ≤ 2 := by
  simp only [aiCore]
  by_cases hk : keyTruthy key = false
  · rw [hk, if_pos rfl]
    simp
  · rw [if_neg hk]
    rcases h1 : net ⟨intlUrl, aiHeaders (key.getD ""), aiPayload msg⟩ with e | resp
    · simp only [h1]
      simp
    · simp only [h1]
      by_cases hs : resp.status_code = 200
      · rw [if_pos hs, aiOn200_trace]
        simp
      · rw [if_neg hs, aiRetry_trace]
        simp

theorem statusFallback_isStr (resp : NetResponse) :
    (statusFallback resp).isStr = true := by
  simp only [statusFallback]
  split <;> rfl

theorem responseJson_ok {resp : NetResponse} {rd : JValue}
    (h : responseJson resp = .ok rd) : loads resp.text = some rd := by
  revert h
  simp only [responseJson]
  cases loads resp.text with
  | none => intro h; cases h
  | some v => intro h; cases h; rfl

/-- Every reply of the AI client is a string, except a verbatim pass-through
of the upstream `output.text` value. -/
theorem get_ai_str_or_upstream (key : Option String) (net : Net) (msg : String)
    (uid : JValue) :
    ((get_ai_response key net msg uid).1.isStr = true) ∨
    (∃ req resp rd t, net req = .ok resp ∧ loads resp.text = some rd ∧
      outputTextCheck rd = .ok (some t) ∧ (get_ai_response key net msg uid).1 = t) := by
  rcases hcore : aiCore key net msg with ⟨x, tr⟩
  cases x with
  | error e =>
    left
    rw [get_ai_response_error key net msg uid e tr hcore]
    rfl
  | ok v =>
    rw [get_ai_response_ok key net msg uid v tr hcore]
    revert hcore
    simp only [aiCore]
    by_cases hk : keyTruthy key = false
    · rw [hk, if_pos rfl]
      intro h
      cases h
      left
      rfl
    · rw [if_neg hk]
      rcases h1 : net ⟨intlUrl, aiHeaders (key.getD ""), aiPayload msg⟩ with e | resp
      · simp only [h1]
        intro h
        cases h
      · simp only [h1]
        by_cases hs : resp.status_code = 200
        · rw [if_pos hs]
          simp only [aiOn200]
          rcases hRd : responseJson resp with e | rd
          · simp only [hRd]
            intro h
            cases h
          · simp only [hRd]
            rcases hot : outputTextCheck rd with e | t?
            · simp only [hot]
              intro h
              cases h
            · cases t? with
              | none =>
                simp only [hot]
                intro h
                cases h
                left
                rfl
              | some t =>
                simp only [hot]
                intro h
                cases h
                right
                exact ⟨_, resp, rd, _, h1, responseJson_ok hRd, hot, rfl⟩
        · rw [if_neg hs]
          simp only [aiRetry]
          rw [if_pos containsSub_intl]
          rcases h2 : net ⟨regionalUrl, aiHeaders (key.getD ""), aiPayload msg⟩ with e | resp2
          · simp only [h2]
            intro h
            cases h
          · simp only [h2]
            by_cases hs2 : resp2.status_code = 200
            · rw [if_pos hs2]
              rcases hRd : responseJson resp2 with e | rd
              · simp only [hRd]
                intro h
                cases h
              · simp only [hRd]
                rcases hot : outputTextCheck rd with e | t?
                · simp only [hot]
                  intro h
                  cases h
                · cases t? with
                  | none =>
                    simp only [hot]
                    intro h
                    cases h
                    left
                    exact statusFallback_isStr resp2
                  | some t =>
                    simp only [hot]
                    intro h
                    cases h
                    right
                    exact ⟨_, resp2, rd, _, h2, responseJson_ok hRd, hot, rfl⟩
            · rw [if_neg hs2]
              intro h
              cases h
              left
              exact statusFallback_isStr resp2

/-! ## Body-extraction equivalence -/

/-- The fallback chain of lines 35-50 written with `Option.getD`. -/
theorem extractBodyStr_eq (event : Event) :
    extractBodyStr event = (lookupKV event "body").getD
      ((lookupKV event "data").getD (.str (dumps (.obj event)))) := by
  unfold extractBodyStr
  cases lookupKV event "body" <;> cases lookupKV event "data" <;> rfl

/-! ## The claims -/

/-- C1, counterexample: the handler applied to an event whose method is
DELETE returns `none` - no HttpResult at all - so it does not return an
HttpResult for every event. -/
theorem claim_C1_counterexample :
    handler ⟨none, netBoom, dt0⟩ evDelete = none := rfl

/-- C1 (amended): the handler never raises: it returns an HttpResult for
every event whose method is POST, GET or OPTIONS (but `none` is possible for
other methods), and any exception raised inside the try block is converted
into a 500 result whose JSON body is the error envelope
`response = "Sorry, I encountered an error: <message>"` with a timestamp,
under headers that include the CORS header. -/
theorem claim_C1 (cfg : Config) (event : Event) :
    ((httpMethodOf event = .str "POST" ∨ httpMethodOf event = .str "GET" ∨
      httpMethodOf event = .str "OPTIONS") → (handler cfg event).isSome = true) ∧
    (∀ e, handlerTry cfg event = .error e →
      handler cfg event = some ⟨500, errHeaders,
        dumps (.obj [("response", .str ("Sorry, I encountered an error: " ++ e.msg)),
          ("timestamp", .str (formatTS cfg.now))])⟩) ∧
    ("Access-Control-Allow-Origin", "*") ∈ errHeaders := by
  refine ⟨?_, ?_, by decide⟩
  · rintro (hm | hm | hm)
    · cases hE : extractMsg (parseBody event) with
      | error e =>
        rw [handler_error_eq cfg event e
          (by rw [handlerTry_post_eq cfg event hm, hE]; rfl)]
        rfl
      | ok mu =>
        rcases mu with ⟨mv, uv⟩
        cases mv with
        | str s => rw [handler_post_str cfg event s uv hm hE]; rfl
        | null => rw [handler_post_nonstr cfg event .null uv hm hE rfl]; rfl
        | bool b => rw [handler_post_nonstr cfg event (.bool b) uv hm hE rfl]; rfl
        | num a b => rw [handler_post_nonstr cfg event (.num a b) uv hm hE rfl]; rfl
        | arr xs => rw [handler_post_nonstr cfg event (.arr xs) uv hm hE rfl]; rfl
        | obj kvs => rw [handler_post_nonstr cfg event (.obj kvs) uv hm hE rfl]; rfl
    · rw [handler_get cfg event hm]; rfl
    · rw [handler_options cfg event hm]; rfl
  · intro e he
    rw [handler_error_eq cfg event e he]
    rfl

/-- C1, witness: a POST event yields some result, and an event on which the
try block raises (a numeric `message` hitting `.strip()`) yields the
concrete 500 envelope. -/
theorem claim_C1_witness :
    (handler ⟨none, netBoom, dt0⟩ evPostEmpty).isSome = true ∧
    handler ⟨none, netBoom, dt0⟩ evPostNum = some ⟨500, errHeaders,
      dumps (.obj [("response",
        .str ("Sorry, I encountered an error: " ++ (stripErr (.num 42 0)).msg)),
        ("timestamp", .str (formatTS dt0))])⟩ :=
  ⟨(claim_C1 ⟨none, netBoom, dt0⟩ evPostEmpty).1 (Or.inl rfl),
   (claim_C1 ⟨none, netBoom, dt0⟩ evPostNum).2.1 (stripErr (.num 42 0)) rfl⟩

/-- C2, counterexample: a POST with the well-formed body
`\x7b"message": "hi", "user_id": "u"\x7d` gets a 200 whose body carries a
NON-string `response` field (the upstream `output.text` value `42` passed
through verbatim), refuting "a string field response". -/
theorem claim_C2_counterexample :
    ∃ r, handler ⟨some "k", net42, dt0⟩ evPostHi = some r ∧
      r.statusCode = 200 ∧
      loads r.body = some (.obj [("response", .num 42 0),
        ("timestamp", .str "2024-01-02 03:04:05")]) ∧
      (JValue.num 42 0).isStr = false :=
  ⟨_, rfl, rfl, rfl, rfl⟩

/-- C2 (amended): for every POST event whose parsed body maps `message` to a
non-empty string, the handler returns status 200 with a body that
deserializes to an object with a `response` field and a `timestamp` field
matching YYYY-MM-DD HH:MM:SS; the response value is a string unless the
upstream 200 response carried a non-string `output.text`, which is passed
through verbatim. -/
theorem claim_C2 (cfg : Config) (event : Event) (kvs : List (String × JValue))
    (m : String)
    (hw : cfg.now.wf)
    (hm : httpMethodOf event = .str "POST")
    (hb : parseBody event = .obj kvs)
    (hmsg : lookupKV kvs "message" = some (.str m))
    (hne : pyStrip m ≠ "") :
    ∃ r v, handler cfg event = some r ∧ r.statusCode = 200 ∧
      loads r.body = some (.obj [("response", v),
        ("timestamp", .str (formatTS cfg.now))]) ∧
      tsMatches (formatTS cfg.now) = true ∧
      (v.isStr = true ∨ ∃ req resp rd t, cfg.net req = .ok resp ∧
        loads resp.text = some rd ∧ outputTextCheck rd = .ok (some t) ∧ v = t) := by
  have hE := extractMsg_obj_found kvs (.str m) hmsg
  rw [← hb] at hE
  have hh := handler_post_str cfg event m _ hm hE
  rw [if_pos hne] at hh
  exact ⟨_, _, hh, rfl, loads_dumps _, tsMatches_formatTS cfg.now hw,
    get_ai_str_or_upstream cfg.apiKey cfg.net m _⟩

/-- C2, witness: the concrete POST `evPostHi` against a network whose
regional endpoint answers with a generation payload. -/
theorem claim_C2_witness :
    ∃ r v, handler ⟨some "k", netRegionalOk, dt0⟩ evPostHi = some r ∧
      r.statusCode = 200 ∧
      loads r.body = some (.obj [("response", v),
        ("timestamp", .str (formatTS dt0))]) ∧
      tsMatches (formatTS dt0) = true ∧
      (v.isStr = true ∨ ∃ req resp rd t, netRegionalOk req = .ok resp ∧
        loads resp.text = some rd ∧ outputTextCheck rd = .ok (some t) ∧ v = t) :=
  claim_C2 ⟨some "k", netRegionalOk, dt0⟩ evPostHi
    [("message", .str "hi"), ("user_id", .str "u")] "hi"
    (by decide) rfl rfl rfl (by decide)

/-- C3, counterexample: a call on which the upstream 200 response maps
`output.text` to the number 42 makes the AI client return that non-string
value, refuting "returns a string" for every call. -/
theorem claim_C3_counterexample :
    (get_ai_response (some "k") net42 "hi" (.str "u")).1 = .num 42 0 ∧
    (JValue.num 42 0).isStr = false := ⟨rfl, rfl⟩

/-- C3 (amended): the AI client never raises - every exception inside its
try block yields the fixed exception fallback string, which is distinct from
the other four fixed reply strings; and every reply is a string except for a
verbatim pass-through of the upstream `output.text` value. -/
theorem claim_C3 (key : Option String) (net : Net) (msg : String) (uid : JValue) :
    (∀ e tr, aiCore key net msg = (.error e, tr) →
      get_ai_response key net msg uid = (.str exceptionFallback, tr)) ∧
    (exceptionFallback ≠ unavailableMsg ∧ exceptionFallback ≠ cannedSuggestion ∧
      exceptionFallback ≠ apiKeyTrouble ∧ exceptionFallback ≠ genericFallback) ∧
    ((get_ai_response key net msg uid).1.isStr = true ∨
      ∃ req resp rd t, net req = .ok resp ∧ loads resp.text = some rd ∧
        outputTextCheck rd = .ok (some t) ∧ (get_ai_response key net msg uid).1 = t) :=
  ⟨fun e tr h => get_ai_response_error key net msg uid e tr h,
   by refine ⟨?_, ?_, ?_, ?_⟩ <;> decide,
   get_ai_str_or_upstream key net msg uid⟩

/-- C3, witness: on a network where every call raises, the client returns
the exception fallback after the one attempted request. -/
theorem claim_C3_witness :
    get_ai_response (some "k") netBoom "hi" (.str "u") =
      (.str exceptionFallback, [⟨intlUrl, aiHeaders "k", aiPayload "hi"⟩]) :=
  (claim_C3 (some "k") netBoom "hi" (.str "u")).1 ⟨"Connection timed out"⟩
    [⟨intlUrl, aiHeaders "k", aiPayload "hi"⟩] rfl

/-- C4: with no API key configured (a falsy key), the AI client returns the
fixed service-unavailable message and the outbound request trace is empty:
zero network calls are made. -/
theorem claim_C4 (key : Option String) (h : keyTruthy key = false)
    (net : Net) (msg : String) (uid : JValue) :
    get_ai_response key net msg uid = (.str unavailableMsg, []) :=
  get_ai_response_no_key key h net msg uid

/-- C4, witness: the absent key at a concrete message and network. -/
theorem claim_C4_witness :
    get_ai_response none netBoom "hi" (.str "u") = (.str unavailableMsg, []) :=
  claim_C4 none rfl netBoom "hi" (.str "u")

/-- C5, counterexample: the primary endpoint returns 401 but the regional
retry returns 500, and the client answers with the generic fallback, not the
API-key-trouble string: the 401 check reads the LAST response, not the
primary one. -/
theorem claim_C5_counterexample :
    net401then500 ⟨intlUrl, aiHeaders "k", aiPayload "hi"⟩ = .ok ⟨401, "denied"⟩ ∧
    (get_ai_response (some "k") net401then500 "hi" (.str "u")).1 =
      .str genericFallback ∧
    genericFallback ≠ apiKeyTrouble := ⟨rfl, rfl, by decide⟩

/-- C5 (amended): when the primary call is not a 200 (triggering the retry)
and the regional retry itself returns HTTP 401, the client returns the fixed
API-key-trouble fallback string. -/
theorem claim_C5 (k msg : String) (uid : JValue) (net : Net)
    (resp1 resp2 : NetResponse) (hk : k ≠ "")
    (h1 : net ⟨intlUrl, aiHeaders k, aiPayload msg⟩ = .ok resp1)
    (hs1 : ¬resp1.status_code = 200)
    (h2 : net ⟨regionalUrl, aiHeaders k, aiPayload msg⟩ = .ok resp2)
    (hs2 : resp2.status_code = 401) :
    (get_ai_response (some k) net msg uid).1 = .str apiKeyTrouble := by
  have hcore : aiCore (some k) net msg = aiRetry k msg net resp1 := by
    rw [aiCore_with_key k hk]
    simp only [h1]
    rw [if_neg hs1]
  rcases hr : aiRetry k msg net resp1 with ⟨x, tr⟩
  have h401 := aiRetry_result_401 k msg net resp1 resp2 h2 hs2
  rw [hr] at h401
  have hx : x = .ok (.str apiKeyTrouble) := h401
  rw [get_ai_response_ok (some k) net msg uid (.str apiKeyTrouble) tr
    (by rw [hcore, hr, hx])]

/-- C5, witness: both endpoints answering 401. -/
theorem claim_C5_witness :
    (get_ai_response (some "k") net401both "hi" (.str "u")).1 =
      .str apiKeyTrouble :=
  claim_C5 "k" "hi" (.str "u") net401both ⟨401, "denied"⟩ ⟨401, "denied"⟩
    (by decide) rfl (by decide) rfl rfl

/-- C6: when the primary call is not a 200, the client makes exactly one
retry: the trace is the primary request followed by one request to the
regional endpoint with identical headers and identical payload; if that
retry is a 200 whose JSON carries `output.text`, that text is returned; and
no execution ever makes more than two outbound requests. -/
theorem claim_C6 (k msg : String) (uid : JValue) (net : Net)
    (resp1 : NetResponse) (hk : k ≠ "")
    (h1 : net ⟨intlUrl, aiHeaders k, aiPayload msg⟩ = .ok resp1)
    (hs1 : ¬resp1.status_code = 200) :
    (get_ai_response (some k) net msg uid).2 =
      [⟨intlUrl, aiHeaders k, aiPayload msg⟩,
       ⟨regionalUrl, aiHeaders k, aiPayload msg⟩] ∧
    (∀ resp2 rd t, net ⟨regionalUrl, aiHeaders k, aiPayload msg⟩ = .ok resp2 →
      resp2.status_code = 200 → loads resp2.text = some rd →
      outputTextCheck rd = .ok (some t) →
      (get_ai_response (some k) net msg uid).1 = t) ∧
    (∀ (key2 : Option String) (net2 : Net) (m2 : String) (u2 : JValue),
      (get_ai_response key2 net2 m2 u2).2.length ≤ 2) := by
  have hcore : aiCore (some k) net msg = aiRetry k msg net resp1 := by
    rw [aiCore_with_key k hk]
    simp only [h1]
    rw [if_neg hs1]
  refine ⟨?_, ?_, ?_⟩
  · rw [get_ai_trace, hcore, aiRetry_trace]
  · intro resp2 rd t h2 hs2 hrd ht
    have htext := aiRetry_result_text k msg net resp1 resp2 rd t h2 hs2 hrd ht
    rcases hr : aiRetry k msg net resp1 with ⟨x, tr⟩
    rw [hr] at htext
    have hx : x = .ok t := htext
    rw [get_ai_response_ok (some k) net msg uid t tr (by rw [hcore, hr, hx])]
  · intro key2 net2 m2 u2
    rw [get_ai_trace]
    exact aiCore_trace_len key2 net2 m2

/-- C6, witness: primary 500, regional 200 with a text payload - the trace
is the two requests in order and the regional text comes back. -/
theorem claim_C6_witness :
    (get_ai_response (some "k") netRegionalOk "hi" (.str "u")).2 =
      [⟨intlUrl, aiHeaders "k", aiPayload "hi"⟩,
       ⟨regionalUrl, aiHeaders "k", aiPayload "hi"⟩] ∧
    (get_ai_response (some "k") netRegionalOk "hi" (.str "u")).1 =
      .str "Try a rice bowl." :=
  have h := claim_C6 "k" "hi" (.str "u") netRegionalOk ⟨500, "error"⟩
    (by decide) rfl (by decide)
  ⟨h.1, h.2.1 ⟨200, "\x7b\"output\": \x7b\"text\": \"Try a rice bowl.\"\x7d\x7d"⟩
    (.obj [("output", .obj [("text", .str "Try a rice bowl.")])])
    (.str "Try a rice bowl.") rfl rfl rfl rfl⟩

/-- C7, counterexample: on an event whose `body` key holds the empty string,
the code short-circuits to an empty mapping (the falsy-string guard of line
58) while the claimed parse-failure fallback would return the raw event
mapping - and the two differ. -/
theorem claim_C7_counterexample :
    parseBody evEmptyBody = .obj [] ∧
    parseBodySpec evEmptyBody = .obj evEmptyBody ∧
    JValue.obj [] ≠ .obj evEmptyBody := ⟨rfl, rfl, by decide⟩

/-- C7 (amended): the body extraction follows the claimed precedence
(`event.body`, then `event.data`, then the serialized event, with the raw
event mapping as the parse-failure fallback) with one amendment: an
extracted EMPTY string is never parsed and becomes the empty mapping. -/
theorem claim_C7 (event : Event) : parseBody event = parseBodySpecAmended event := by
  unfold parseBody parseBodySpecAmended
  rw [← extractBodyStr_eq]
  cases extractBodyStr event with
  | str s =>
    show (if s = "" then JValue.obj []
        else match loads s with | some v => v | none => JValue.obj event) =
      (if s = "" then JValue.obj [] else (loads s).getD (JValue.obj event))
    by_cases hs : s = ""
    · rw [if_pos hs, if_pos hs]
    · rw [if_neg hs, if_neg hs]
      cases loads s <;> rfl
  | null => rfl
  | bool b => rfl
  | num a b => rfl
  | arr xs => rfl
  | obj kvs => rfl

/-- C7, witness: the equivalence at a concrete event carrying a JSON body
string. -/
theorem claim_C7_witness :
    parseBody evPostHi = parseBodySpecAmended evPostHi :=
  claim_C7 evPostHi

/-- C8: a POST from which only an empty (all-whitespace) message is
extracted gets status 200 - not an error - and its response text is the
debug string embedding the pretty-printed event dump truncated to its first
500 characters. -/
theorem claim_C8 (cfg : Config) (event : Event) (s : String) (u : JValue)
    (hm : httpMethodOf event = .str "POST")
    (hE : extractMsg (parseBody event) = .ok (.str s, u))
    (hs : pyStrip s = "") :
    handler cfg event = some ⟨200, postHeaders,
      dumps (.obj [("response",
        .str ("[DEBUG] Could not extract message. Event structure: " ++
          String.mk ((dumpsIndent2 (.obj event)).data.take 500) ++ "...")),
        ("timestamp", .str (formatTS cfg.now))])⟩ := by
  rw [handler_post_str cfg event s u hm hE, if_neg (not_not_intro hs)]
  rfl

/-- C8, witness: the POST whose body is the empty JSON object. -/
theorem claim_C8_witness :
    handler ⟨none, netBoom, dt0⟩ evPostEmpty = some ⟨200, postHeaders,
      dumps (.obj [("response",
        .str ("[DEBUG] Could not extract message. Event structure: " ++
          String.mk ((dumpsIndent2 (.obj evPostEmpty)).data.take 500) ++ "...")),
        ("timestamp", .str (formatTS dt0))])⟩ :=
  claim_C8 ⟨none, netBoom, dt0⟩ evPostEmpty "" (.str "anonymous") rfl rfl rfl

/-- C9: an event whose method (after the GET default) is none of POST, GET
or OPTIONS makes the handler return no value at all. -/
theorem claim_C9 (cfg : Config) (event : Event)
    (h1 : httpMethodOf event ≠ .str "POST")
    (h2 : httpMethodOf event ≠ .str "GET")
    (h3 : httpMethodOf event ≠ .str "OPTIONS") :
    handler cfg event = none := by
  simp only [handler, handlerTry]
  rw [if_neg h1, if_neg h2, if_neg h3]
  rfl

/-- C9, witness: the DELETE event. -/
theorem claim_C9_witness : handler ⟨some "k", netBoom, dt0⟩ evDelete = none :=
  claim_C9 ⟨some "k", netBoom, dt0⟩ evDelete (by decide) (by decide) (by decide)

/-- C10: a POST whose parsed body maps `message` to a non-string value makes
the strip check raise, and the handler answers with the 500 error envelope
(the caught-exception body of lines 145-160), not a 200 chat response. -/
theorem claim_C10 (cfg : Config) (event : Event) (kvs : List (String × JValue))
    (m : JValue)
    (hm : httpMethodOf event = .str "POST")
    (hb : parseBody event = .obj kvs)
    (hmsg : lookupKV kvs "message" = some m)
    (hns : m.isStr = false) :
    handler cfg event = some (err500 cfg.now (stripErr m)) ∧
    (err500 cfg.now (stripErr m)).statusCode = 500 ∧
    (err500 cfg.now (stripErr m)).body =
      dumps (.obj [("response",
        .str ("Sorry, I encountered an error: " ++ (stripErr m).msg)),
        ("timestamp", .str (formatTS cfg.now))]) := by
  have hE := extractMsg_obj_found kvs m hmsg
  rw [← hb] at hE
  exact ⟨handler_post_nonstr cfg event m _ hm hE hns, rfl, rfl⟩

/-- C10, witness: the POST whose body maps `message` to the number 42. -/
theorem claim_C10_witness :
    handler ⟨some "k", netBoom, dt0⟩ evPostNum =
      some (err500 dt0 (stripErr (.num 42 0))) ∧
    (err500 dt0 (stripErr (.num 42 0))).statusCode = 500 ∧
    (err500 dt0 (stripErr (.num 42 0))).body =
      dumps (.obj [("response",
        .str ("Sorry, I encountered an error: " ++ (stripErr (.num 42 0)).msg)),
        ("timestamp", .str (formatTS dt0))]) :=
  claim_C10 ⟨some "k", netBoom, dt0⟩ evPostNum [("message", .num 42 0)]
    (.num 42 0) rfl rfl rfl rfl
